import Mathlib

-- Verification of the chapter segmentation and chunked synthesis pipeline of
-- the audiobook generator repository.  The Python sources under
-- src/audiobook_generator are shallowly embedded below: strings become
-- `List Char`, regular-expression substitutions become explicit character
-- scanners with the exact matching semantics of the patterns used by the
-- source, fallible code returns `Except`.  Fuel arguments (always called with
-- the length of the scanned list, which bounds the number of steps) keep the
-- scanners structurally recursive so that every definition evaluates by
-- kernel reduction.

set_option maxRecDepth 10000

instance exceptDecidableEq {α β : Type} [DecidableEq α] [DecidableEq β] :
    DecidableEq (Except α β) := fun x y =>
  match x, y with
  | .ok a, .ok b =>
      if h : a = b then .isTrue (by rw [h])
      else .isFalse (by intro hh; injection hh; contradiction)
  | .error a, .error b =>
      if h : a = b then .isTrue (by rw [h])
      else .isFalse (by intro hh; injection hh; contradiction)
  | .ok _, .error _ => .isFalse (by intro hh; injection hh)
  | .error _, .ok _ => .isFalse (by intro hh; injection hh)

-- ### Basic character and list utilities

-- Python `\s` for the ASCII range: space, tab, newline, carriage return,
-- vertical tab, form feed.
def isPySpace (c : Char) : Bool :=
  c == ' ' || c == '\t' || c == '\n' || c == '\r' || c == Char.ofNat 11 || c == Char.ofNat 12

def startsWithPat : List Char → List Char → Bool
  | [], _ => true
  | _ :: _, [] => false
  | p :: ps, c :: cs => p == c && startsWithPat ps cs

-- Substring occurrence test: some position of `s` starts with `pat`.
def containsPat (pat : List Char) : List Char → Bool
  | [] => pat.isEmpty
  | c :: rest => startsWithPat pat (c :: rest) || containsPat pat rest

-- Python `sep.join(pieces)`.
def joinSep (sep : List Char) : List (List Char) → List Char
  | [] => []
  | [x] => x
  | x :: y :: xs => x ++ sep ++ joinSep sep (y :: xs)

def lowerList (s : List Char) : List Char := s.map Char.toLower

-- Python `str.strip()` (ASCII whitespace; the documents handled by the
-- claims contain no exotic unicode whitespace).
def pyStripL (s : List Char) : List Char := s.dropWhile isPySpace

def pyStripR (s : List Char) : List Char :=
  s.foldr (fun c acc => if acc.isEmpty && isPySpace c then [] else c :: acc) []

def pyStrip (s : List Char) : List Char := pyStripR (pyStripL s)

-- ### Python `str.splitlines()` (for the line-break characters that occur in
-- markdown documents: "\n", "\r\n", "\r"); no trailing empty line is
-- produced.
def splitLinesGo : Nat → List Char → List Char → List (List Char)
  | 0, acc, s => [acc.reverse ++ s]
  | _ + 1, acc, [] => [acc.reverse]
  | n + 1, acc, c :: rest =>
      if c == '\r' then
        match rest with
        | c2 :: rest2 =>
            if c2 == '\n' then
              acc.reverse :: (if rest2.isEmpty then [] else splitLinesGo n [] rest2)
            else
              acc.reverse :: splitLinesGo n [] rest
        | [] => [acc.reverse]
      else if c == '\n' then
        acc.reverse :: (if rest.isEmpty then [] else splitLinesGo n [] rest)
      else splitLinesGo n (c :: acc) rest

def splitLines (s : List Char) : List (List Char) :=
  if s.isEmpty then [] else splitLinesGo s.length [] s

-- ### Front matter (MarkdownBookParser._extract_front_matter)

-- FRONT_MATTER_DELIMITER = `^---\s*$`
def isDelimiterLine : List Char → Bool
  | '-' :: '-' :: '-' :: rest => rest.all isPySpace
  | _ => false

-- Key character class of METADATA_PATTERN: `[A-Za-z0-9_\- ]`.
def isMetaKeyChar (c : Char) : Bool :=
  c.isAlphanum || c == '_' || c == '-' || c == ' '

-- METADATA_PATTERN = `^(?P<key>[A-Za-z0-9_\- ]+):\s*(?P<value>.+)$` followed
-- by the source's `.strip().lower()` on the key and `.strip()` on the value.
-- The regex matches exactly when a non-empty run of key characters is
-- followed by ':' and at least one further character; stripping the raw
-- remainder equals stripping the `\s*(.+)`-captured group.
def metaMatch (line : List Char) : Option (List Char × List Char) :=
  let keyPart := line.takeWhile isMetaKeyChar
  match line.drop keyPart.length with
  | ':' :: value =>
      if keyPart.isEmpty || value.isEmpty then none
      else some (lowerList (pyStrip keyPart), pyStrip value)
  | _ => none

abbrev KV := List Char × List Char

-- Python dict assignment `metadata[key] = value`: update in place when the
-- key is present, append otherwise.
def dictInsert (md : List KV) (k v : List Char) : List KV :=
  if md.any (fun p => decide (p.fst = k)) then
    md.map (fun p => if p.fst = k then (k, v) else p)
  else md ++ [(k, v)]

def assocFind (md : List KV) (k : List Char) : Option (List Char) :=
  match md with
  | [] => none
  | (k2, v) :: rest => if k2 = k then some v else assocFind rest k

-- Scan of the lines after an opening delimiter: metadata lines are captured
-- until the first closing delimiter; `some rest` marks that a closing
-- delimiter was found and `rest` is the body after it.
def fmScanGo (md : List KV) : List (List Char) → List KV × Option (List (List Char))
  | [] => (md, none)
  | l :: rest =>
      if isDelimiterLine l then (md, some rest)
      else
        fmScanGo (match metaMatch l with
                  | some (k, v) => dictInsert md k v
                  | none => md) rest

-- MarkdownBookParser._extract_front_matter: when no closing delimiter is
-- found, body_start stays 0, so the body is the whole document (while the
-- captured metadata is still kept).
def extractFrontMatter (text : List Char) : List KV × List (List Char) :=
  let lines := splitLines text
  match lines with
  | [] => ([], [])
  | l0 :: rest =>
      if isDelimiterLine l0 then
        match fmScanGo [] rest with
        | (md, some after) => (md, after)
        | (md, none) => (md, lines)
      else ([], lines)

-- HEADING_PATTERN = `^\s*(#{1,6})\s+(.*)$`.  Returns the heading level and
-- the raw second group (the text after the maximal whitespace run following
-- the hashes); callers strip it, as the source does.
def headingMatch (line : List Char) : Option (Nat × List Char) :=
  let t := line.dropWhile isPySpace
  let hs := t.takeWhile (fun c => c == '#')
  if 1 ≤ hs.length && hs.length ≤ 6 then
    match t.drop hs.length with
    | c :: rest => if isPySpace c then some (hs.length, (c :: rest).dropWhile isPySpace) else none
    | [] => none
  else none

-- ### MarkdownBookParser._strip_markdown: one scanner per `re.sub` pass, in
-- the source's order.  Each scanner reproduces the leftmost-match,
-- non-overlapping, no-rescan semantics of `re.sub` for its concrete pattern.

def tickChar : Char := Char.ofNat 96

-- Pass 1: fenced code blocks, `re.sub(r"```.*?```", "", text, flags=DOTALL)`.
-- Non-greedy: an opening fence is closed by the nearest following fence; an
-- opening fence with no closing fence matches nothing (and then no later
-- match exists either, since any match needs two fences).
def findFenceClose : List Char → Option (List Char)
  | [] => none
  | c :: rest =>
      if c == tickChar && startsWithPat [tickChar, tickChar] rest then some (rest.drop 2)
      else findFenceClose rest

def stripCodeBlocksGo : Nat → List Char → List Char
  | 0, s => s
  | _ + 1, [] => []
  | n + 1, c :: rest =>
      if c == tickChar && startsWithPat [tickChar, tickChar] rest then
        match findFenceClose (rest.drop 2) with
        | some after => stripCodeBlocksGo n after
        | none => c :: rest
      else c :: stripCodeBlocksGo n rest

def stripCodeBlocks (s : List Char) : List Char := stripCodeBlocksGo s.length s

-- Content up to (not including) the first occurrence of `stop`, together with
-- the remainder after it; `none` when `stop` does not occur.
def scanUntil (stop : Char) : List Char → Option (List Char × List Char)
  | [] => none
  | c :: rest =>
      if c == stop then some ([], rest)
      else
        match scanUntil stop rest with
        | some (b, a) => some (c :: b, a)
        | none => none

-- Pass 2: inline code, `re.sub(r"`([^`]*)`", r"\1", text)`.
def stripInlineCodeGo : Nat → List Char → List Char
  | 0, s => s
  | _ + 1, [] => []
  | n + 1, c :: rest =>
      if c == tickChar then
        match scanUntil tickChar rest with
        | some (content, after) => content ++ stripInlineCodeGo n after
        | none => c :: rest
      else c :: stripInlineCodeGo n rest

def stripInlineCode (s : List Char) : List Char := stripInlineCodeGo s.length s

-- Pass 3: images, `re.sub(r"!\[([^\]]*)\]\([^\)]*\)", r"\1", text)`; the alt
-- text replaces the whole construct and is not rescanned.
def stripImagesGo : Nat → List Char → List Char
  | 0, s => s
  | _ + 1, [] => []
  | n + 1, c :: rest =>
      if c == '!' then
        match rest with
        | '[' :: r2 =>
            (match scanUntil ']' r2 with
             | some (alt, r3) =>
                 (match r3 with
                  | '(' :: r4 =>
                      (match scanUntil ')' r4 with
                       | some (_, r5) => alt ++ stripImagesGo n r5
                       | none => c :: stripImagesGo n rest)
                  | _ => c :: stripImagesGo n rest)
             | none => c :: stripImagesGo n rest)
        | _ => c :: stripImagesGo n rest
      else c :: stripImagesGo n rest

def stripImages (s : List Char) : List Char := stripImagesGo s.length s

-- Pass 4: links, `re.sub(r"\[([^\]]+)\]\([^\)]*\)", r"\1", text)`; the link
-- text must be non-empty.
def stripLinksGo : Nat → List Char → List Char
  | 0, s => s
  | _ + 1, [] => []
  | n + 1, c :: rest =>
      if c == '[' then
        match scanUntil ']' rest with
        | some (txt, r3) =>
            if txt.isEmpty then c :: stripLinksGo n rest
            else
              match r3 with
              | '(' :: r4 =>
                  (match scanUntil ')' r4 with
                   | some (_, r5) => txt ++ stripLinksGo n r5
                   | none => c :: stripLinksGo n rest)
              | _ => c :: stripLinksGo n rest
        | none => c :: stripLinksGo n rest
      else c :: stripLinksGo n rest

def stripLinks (s : List Char) : List Char := stripLinksGo s.length s

def headIs (d : Char) : List Char → Bool
  | [] => false
  | c :: _ => c == d

-- Closing search for `(.*?)` followed by a two-character delimiter: the
-- nearest following delimiter, failing on '\n' (the dot does not match it).
def findClose2 (d : Char) : List Char → Option (List Char × List Char)
  | [] => none
  | c :: rest =>
      if c == d && headIs d rest then some ([], rest.drop 1)
      else if c == '\n' then none
      else
        match findClose2 d rest with
        | some (b, a) => some (c :: b, a)
        | none => none

-- Pass 5: bold, `re.sub(r"(\*\*|__)(.*?)\1", r"\2", text)`.
def stripBoldGo : Nat → List Char → List Char
  | 0, s => s
  | _ + 1, [] => []
  | n + 1, c :: rest =>
      if c == '*' && headIs '*' rest then
        match findClose2 '*' (rest.drop 1) with
        | some (mid, after) => mid ++ stripBoldGo n after
        | none => c :: stripBoldGo n rest
      else if c == '_' && headIs '_' rest then
        match findClose2 '_' (rest.drop 1) with
        | some (mid, after) => mid ++ stripBoldGo n after
        | none => c :: stripBoldGo n rest
      else c :: stripBoldGo n rest

def stripBold (s : List Char) : List Char := stripBoldGo s.length s

-- Closing search for `(.*?)` followed by a one-character delimiter.
def findClose1 (d : Char) : List Char → Option (List Char × List Char)
  | [] => none
  | c :: rest =>
      if c == d then some ([], rest)
      else if c == '\n' then none
      else
        match findClose1 d rest with
        | some (b, a) => some (c :: b, a)
        | none => none

-- Pass 6: italics, `re.sub(r"(\*|_)(.*?)\1", r"\2", text)`.
def stripItalicGo : Nat → List Char → List Char
  | 0, s => s
  | _ + 1, [] => []
  | n + 1, c :: rest =>
      if c == '*' || c == '_' then
        match findClose1 c rest with
        | some (mid, after) => mid ++ stripItalicGo n after
        | none => c :: stripItalicGo n rest
      else c :: stripItalicGo n rest

def stripItalic (s : List Char) : List Char := stripItalicGo s.length s

def lastIsNl (l : List Char) : Bool :=
  match l.getLast? with
  | some c => c == '\n'
  | none => false

-- Pass 7: blockquotes, `re.sub(r"^>+\s?", "", text, flags=MULTILINE)`.  The
-- Bool argument tracks whether the current position is a `^` position
-- (string start or just after '\n'); the optional `\s` may itself be a
-- newline, in which case the next position is again a line start.
def stripBlockquotesGo : Nat → Bool → List Char → List Char
  | 0, _, s => s
  | _ + 1, _, [] => []
  | n + 1, atStart, c :: rest =>
      if atStart && c == '>' then
        let rest2 := rest.dropWhile (fun x => x == '>')
        match rest2 with
        | [] => []
        | d :: r3 =>
            if isPySpace d then stripBlockquotesGo n (d == '\n') r3
            else stripBlockquotesGo n false rest2
      else c :: stripBlockquotesGo n (c == '\n') rest

def stripBlockquotes (s : List Char) : List Char := stripBlockquotesGo s.length true s

def isBulletChar (c : Char) : Bool := c == '-' || c == '*' || c == '+'

-- Pass 8: bullet lists, `re.sub(r"^\s{0,3}[-*+]\s+", "", text, flags=MULTILINE)`.
-- Since whitespace is never a bullet character, the bullet must sit at the
-- end of the (maximal, at most 3 characters long) whitespace run.
def stripBulletsGo : Nat → Bool → List Char → List Char
  | 0, _, s => s
  | _ + 1, _, [] => []
  | n + 1, atStart, c :: rest =>
      if atStart then
        let s := c :: rest
        let ws := s.takeWhile isPySpace
        if ws.length ≤ 3 then
          match s.drop ws.length with
          | b :: r2 =>
              if isBulletChar b then
                let ws2 := r2.takeWhile isPySpace
                if 1 ≤ ws2.length then stripBulletsGo n (lastIsNl ws2) (r2.drop ws2.length)
                else c :: stripBulletsGo n (c == '\n') rest
              else c :: stripBulletsGo n (c == '\n') rest
          | [] => c :: stripBulletsGo n (c == '\n') rest
        else c :: stripBulletsGo n (c == '\n') rest
      else c :: stripBulletsGo n (c == '\n') rest

def stripBullets (s : List Char) : List Char := stripBulletsGo s.length true s

-- Pass 9: numbered lists, `re.sub(r"^\s*\d+\.\s+", "", text, flags=MULTILINE)`.
def stripNumberedGo : Nat → Bool → List Char → List Char
  | 0, _, s => s
  | _ + 1, _, [] => []
  | n + 1, atStart, c :: rest =>
      if atStart then
        let s := c :: rest
        let ws := s.takeWhile isPySpace
        let t := s.drop ws.length
        let ds := t.takeWhile Char.isDigit
        if 1 ≤ ds.length then
          match t.drop ds.length with
          | '.' :: r3 =>
              let ws2 := r3.takeWhile isPySpace
              if 1 ≤ ws2.length then stripNumberedGo n (lastIsNl ws2) (r3.drop ws2.length)
              else c :: stripNumberedGo n (c == '\n') rest
          | _ => c :: stripNumberedGo n (c == '\n') rest
        else c :: stripNumberedGo n (c == '\n') rest
      else c :: stripNumberedGo n (c == '\n') rest

def stripNumbered (s : List Char) : List Char := stripNumberedGo s.length true s

-- Pass 10: heading markers, `re.sub(r"^\s*(#{1,6})\s*", "", text, flags=MULTILINE)`.
-- At most 6 hashes of a longer run are consumed; the trailing `\s*` may be
-- empty.
def stripHeadingMarksGo : Nat → Bool → List Char → List Char
  | 0, _, s => s
  | _ + 1, _, [] => []
  | n + 1, atStart, c :: rest =>
      if atStart then
        let s := c :: rest
        let ws := s.takeWhile isPySpace
        let t := s.drop ws.length
        let hs := t.takeWhile (fun x => x == '#')
        if 1 ≤ hs.length then
          let t2 := t.drop (min hs.length 6)
          let ws2 := t2.takeWhile isPySpace
          stripHeadingMarksGo n (lastIsNl ws2) (t2.drop ws2.length)
        else c :: stripHeadingMarksGo n (c == '\n') rest
      else c :: stripHeadingMarksGo n (c == '\n') rest

def stripHeadingMarks (s : List Char) : List Char := stripHeadingMarksGo s.length true s

-- MarkdownBookParser._strip_markdown: the ten passes in source order.
def stripMarkdown (s : List Char) : List Char :=
  stripHeadingMarks (stripNumbered (stripBullets (stripBlockquotes
    (stripItalic (stripBold (stripLinks (stripImages
      (stripInlineCode (stripCodeBlocks s)))))))))

-- ### MarkdownBookParser._apply_newline_mode

-- `text.replace("\r\n", "\n")`.
def replCRLFGo : Bool → List Char → List Char
  | sawCR, [] => if sawCR then ['\r'] else []
  | sawCR, c :: rest =>
      if sawCR then
        if c == '\n' then '\n' :: replCRLFGo false rest
        else if c == '\r' then '\r' :: replCRLFGo true rest
        else '\r' :: c :: replCRLFGo false rest
      else if c == '\r' then replCRLFGo true rest
      else c :: replCRLFGo false rest

def replCRLF (s : List Char) : List Char := replCRLFGo false s

-- `re.sub(r"\n+", rep, s)`: every maximal run of newlines becomes `rep`.
-- The Bool argument records whether the scanner is inside a newline run.
def subNlRunsGo (rep : List Char) : Bool → List Char → List Char
  | _, [] => []
  | inRun, c :: rest =>
      if c == '\n' then (if inRun then [] else rep) ++ subNlRunsGo rep true rest
      else c :: subNlRunsGo rep false rest

def subNlRuns (rep : List Char) (s : List Char) : List Char := subNlRunsGo rep false s

def flushNl (rep : List Char) : Nat → List Char
  | 0 => []
  | 1 => ['\n']
  | _ + 2 => rep

-- `re.sub(r"\n{2,}", rep, s)`: maximal runs of at least two newlines become
-- `rep`; a single newline is kept.  `run` counts pending newlines.
def subNl2Go (rep : List Char) : Nat → List Char → List Char
  | run, [] => flushNl rep run
  | run, c :: rest =>
      if c == '\n' then subNl2Go rep (run + 1) rest
      else flushNl rep run ++ c :: subNl2Go rep 0 rest

def subNl2 (rep : List Char) (s : List Char) : List Char := subNl2Go rep 0 s

-- `re.sub(r"\n", " ", s)`.
def mapNlSpace (s : List Char) : List Char :=
  s.map (fun c => if c == '\n' then ' ' else c)

-- The replacement inserted for a paragraph break: f" {break_string.strip()} ".
def padSep (bs : List Char) : List Char := ' ' :: (pyStrip bs ++ [' '])

-- MarkdownBookParser._apply_newline_mode; an unrecognized mode raises
-- ValueError.
def applyNewlineMode (mode : String) (bs : List Char) (text : List Char) :
    Except String (List Char) :=
  let t := replCRLF text
  if mode = "single" then .ok (subNlRuns (padSep bs) t)
  else if mode = "double" then .ok (mapNlSpace (subNl2 (padSep bs) t))
  else if mode = "none" then .ok (mapNlSpace t)
  else .error ("Invalid newline mode: " ++ mode)

-- `re.sub(r"\s+", " ", s)`: every maximal whitespace run becomes one space.
def collapseWsGo : Bool → List Char → List Char
  | _, [] => []
  | inRun, c :: rest =>
      if isPySpace c then (if inRun then [] else [' ']) ++ collapseWsGo true rest
      else c :: collapseWsGo false rest

def collapseWs (s : List Char) : List Char := collapseWsGo false s

-- ### Endnote and reference stripping (flag-guarded passes of
-- _build_chapter_text)

-- Lookbehind class of `(?<=[a-zA-Z.,!?;\"”)])\d+`.
def endnotePrevChar (c : Char) : Bool :=
  c.isAlpha || c == '.' || c == ',' || c == '!' || c == '?' || c == ';' ||
    c == '"' || c == Char.ofNat 8221 || c == ')'

-- `re.sub(r'(?<=[a-zA-Z.,!?;\"”)])\d+', "", s)`: a maximal digit run whose
-- preceding character (in the original text) is in the class is removed.
def removeEndnotesGo : Nat → Option Char → List Char → List Char
  | 0, _, s => s
  | _ + 1, _, [] => []
  | n + 1, prev, c :: rest =>
      if c.isDigit && (match prev with | some p => endnotePrevChar p | none => false) then
        let ds := (c :: rest).takeWhile Char.isDigit
        removeEndnotesGo n (some (ds.getLastD c)) ((c :: rest).drop ds.length)
      else c :: removeEndnotesGo n (some c) rest

def removeEndnotes (s : List Char) : List Char := removeEndnotesGo s.length none s

-- `re.sub(r'\[\d+(\.\d+)?\]', "", s)`.
def refMatch (t : List Char) : Option (List Char) :=
  let ds := t.takeWhile Char.isDigit
  if ds.isEmpty then none
  else
    match t.drop ds.length with
    | ']' :: r => some r
    | '.' :: r2 =>
        let ds2 := r2.takeWhile Char.isDigit
        if ds2.isEmpty then none
        else
          match r2.drop ds2.length with
          | ']' :: r3 => some r3
          | _ => none
    | _ => none

def removeRefsGo : Nat → List Char → List Char
  | 0, s => s
  | _ + 1, [] => []
  | n + 1, c :: rest =>
      if c == '[' then
        match refMatch rest with
        | some after => removeRefsGo n after
        | none => c :: removeRefsGo n rest
      else c :: removeRefsGo n rest

def removeRefs (s : List Char) : List Char := removeRefsGo s.length s

-- ### Chapter text assembly (MarkdownBookParser._build_chapter_text)

structure ParserCfg where
  newlineMode : String
  removeEndnotesFlag : Bool
  removeReferenceNumbersFlag : Bool
  -- `os.path.splitext(os.path.basename(config.input_file))[0]`, the
  -- extension-stripped base name of the input file, precomputed.
  inputFileBase : List Char
deriving DecidableEq, Repr

-- _build_chapter_text.  `heading` is the source's optional `heading`
-- argument (Python truthiness: `None` and `""` are both falsy).  The user
-- search-and-replace loop is modelled for runs without a
-- search_and_replace_file, where get_search_and_replaces returns the empty
-- list and the loop is a no-op.
def buildChapterText (cfg : ParserCfg) (bs : List Char) (lines : List (List Char))
    (heading : Option (List Char)) : Except String (List Char) :=
  if lines.isEmpty && (heading = none || heading = some []) then .ok []
  else
    let headingParts : List (List Char) :=
      match heading with
      | some h =>
          if h.isEmpty then []
          else
            let ht := pyStrip h
            if ht.isEmpty then [] else [ht]
      | none => []
    let bodyText := pyStrip (joinSep ['\n'] lines)
    let parts := headingParts ++ (if !lines.isEmpty && !bodyText.isEmpty then [bodyText] else [])
    let text0 := pyStrip (joinSep ['\n', '\n'] parts)
    if text0.isEmpty then .ok []
    else do
      let t1 := stripMarkdown text0
      let t2 ← applyNewlineMode cfg.newlineMode bs t1
      let t3 := if cfg.removeEndnotesFlag then removeEndnotes t2 else t2
      let t4 := if cfg.removeReferenceNumbersFlag then removeRefs t3 else t3
      .ok (pyStrip (collapseWs t4))

-- ### Title sanitization and book title

def isWordChar (c : Char) : Bool := c.isAlphanum || c == '_'

-- `re.sub(r"\s+", "_", s)` (no stripping: boundary runs also become '_').
def wsToUnderscoreGo : Bool → List Char → List Char
  | _, [] => []
  | inRun, c :: rest =>
      if isPySpace c then (if inRun then [] else ['_']) ++ wsToUnderscoreGo true rest
      else c :: wsToUnderscoreGo false rest

-- Python `str.replace(pat, tgt)` for a non-empty pattern: non-overlapping,
-- leftmost-first, the replacement is not rescanned.  (The only patterns the
-- callers use are the non-empty break marker; for an empty pattern the model
-- returns the input unchanged.)
def pyReplaceGo (pat tgt : List Char) : Nat → List Char → List Char
  | 0, s => s
  | _ + 1, [] => []
  | n + 1, c :: rest =>
      if startsWithPat pat (c :: rest) then tgt ++ pyReplaceGo pat tgt n ((c :: rest).drop pat.length)
      else c :: pyReplaceGo pat tgt n rest

def pyReplace (s pat tgt : List Char) : List Char :=
  if pat.isEmpty then s else pyReplaceGo pat tgt s.length s

/-- Modelled from the spec: `BaseBookParser.sanitize_title` is called by
`get_chapters` but its definition is not under src/.  The spec says the
produced artifact is "named deterministically from chapter position and
sanitized title", and the repository's parser test expects the heading
"Chapter One" to become the title "Chapter_One".  Modelled as: replace the
break string by a space, drop every character that is neither a word
character nor whitespace, and replace each whitespace run by one
underscore. -/
def sanitizeTitle (bs title : List Char) : List Char :=
  let t1 := pyReplace title bs [' ']
  let t2 := t1.filter (fun c => isWordChar c || isPySpace c)
  wsToUnderscoreGo false t2

-- MarkdownBookParser.get_book_title: metadata title, else the first level-1
-- heading, else the input file's base name.
def getBookTitle (cfg : ParserCfg) (md : List KV) (bodyLines : List (List Char)) : List Char :=
  match assocFind md ("title").data with
  | some v => v
  | none =>
      match bodyLines.findSome? (fun l =>
        match headingMatch l with
        | some (lvl, t) => if lvl = 1 then some (pyStrip t) else none
        | none => none) with
      | some t => t
      | none => cfg.inputFileBase

-- ### The chapter scan (MarkdownBookParser.get_chapters)

-- One chapter of the output, annotated with the pre-sanitization title
-- (`titleSource`, the source's `title_source` local) and whether the
-- fallback "Chapter {n}" branch produced it (`current_title` was falsy).
structure AnnChapter where
  title : List Char
  text : List Char
  titleSource : List Char
  usedFallback : Bool
deriving DecidableEq, Repr

structure ChapState where
  chapters : List AnnChapter
  currentTitle : Option (List Char)
  currentLines : List (List Char)
  fallbackIndex : Nat
deriving DecidableEq, Repr

def chapterNumTitle (n : Nat) : List Char := ("Chapter ").data ++ (Nat.repr n).data

-- The close-off block of get_chapters: build the accumulated chapter text;
-- when it is non-empty, emit the chapter (with the fallback title when
-- `current_title` is falsy) and, inside the heading loop, advance
-- fallback_index (the block after the loop does not).
def closeOffChapter (cfg : ParserCfg) (bs : List Char) (incr : Bool) (st : ChapState) :
    Except String ChapState := do
  let chapterText ← buildChapterText cfg bs st.currentLines st.currentTitle
  if chapterText.isEmpty then pure st
  else
    -- Python truthiness of `current_title or ...`: falsy when None or "".
    let fb : Bool :=
      match st.currentTitle with
      | none => true
      | some t => t.isEmpty
    let ts :=
      match st.currentTitle with
      | some t => if t.isEmpty then chapterNumTitle st.fallbackIndex else t
      | none => chapterNumTitle st.fallbackIndex
    pure { st with
            chapters := st.chapters ++ [⟨sanitizeTitle bs ts, chapterText, ts, fb⟩],
            fallbackIndex := if incr then st.fallbackIndex + 1 else st.fallbackIndex }

-- One iteration of the line loop of get_chapters.
def chapterStep (cfg : ParserCfg) (bs : List Char) (st : ChapState) (line : List Char) :
    Except String ChapState :=
  match headingMatch line with
  | some (level, rawText) =>
      if level ≤ 2 then do
        let st2 ←
          if st.currentTitle ≠ none || !st.currentLines.isEmpty then
            closeOffChapter cfg bs true st
          else pure st
        pure { st2 with currentTitle := some (pyStrip rawText), currentLines := [] }
      else pure { st with currentLines := st.currentLines ++ [line] }
  | none => pure { st with currentLines := st.currentLines ++ [line] }

-- The heading-driven scan: the line loop followed by the final close-off.
def scanChapters (cfg : ParserCfg) (bs : List Char) (bodyLines : List (List Char)) :
    Except String (List AnnChapter) := do
  let st ← bodyLines.foldlM (chapterStep cfg bs) ⟨[], none, [], 1⟩
  let st2 ←
    if st.currentTitle ≠ none || !st.currentLines.isEmpty then
      closeOffChapter cfg bs false st
    else pure st
  pure st2.chapters

-- get_chapters: the scan, then the no-heading fallback that emits a single
-- chapter titled by the book title when the scan produced nothing and the
-- body is non-empty (and the built text is non-empty).
def getChaptersAnnotated (cfg : ParserCfg) (bs : List Char) (md : List KV)
    (bodyLines : List (List Char)) : Except String (List AnnChapter) := do
  let chapters ← scanChapters cfg bs bodyLines
  if chapters.isEmpty && !bodyLines.isEmpty then
    let bt := getBookTitle cfg md bodyLines
    let text ← buildChapterText cfg bs bodyLines (some bt)
    if !text.isEmpty then
      let ts := if bt.isEmpty then ("Chapter 1").data else bt
      pure [⟨sanitizeTitle bs ts, text, ts, bt.isEmpty⟩]
    else pure []
  else pure chapters

-- The (title, text) pairs the source returns.
def getChapters (cfg : ParserCfg) (bs : List Char) (md : List KV)
    (bodyLines : List (List Char)) : Except String (List (List Char × List Char)) :=
  (getChaptersAnnotated cfg bs md bodyLines).map (List.map (fun a => (a.title, a.text)))

-- Whole-document entry point: front matter extraction followed by the scan.
def getChaptersFromDoc (cfg : ParserCfg) (bs : List Char) (doc : List Char) :
    Except String (List (List Char × List Char)) :=
  let p := extractFrontMatter doc
  getChapters cfg bs p.fst p.snd

-- The default configuration of the command line: newline_mode "double", both
-- stripping flags off.
def defaultCfg : ParserCfg := ⟨"double", false, false, ("book").data⟩

def brkString : List Char := (" @BRK#").data

-- ### TTS providers: chunk preparation
-- (GeminiTTSProvider._prepare_prompt, MinimaxTTSProvider._prepare_text,
-- Qwen3TTSProvider._prepare_text).  All three providers' get_break_string
-- returns the constant DEFAULT_BREAK_STRING " @BRK#".

def blankLine : List Char := ['\n', '\n']

-- GeminiTTSProvider._prepare_prompt: replace the break marker by a blank
-- line; a configured non-empty instructions string is prepended (stripped)
-- with a blank line separator.
def geminiPreparePrompt (instructions : Option (List Char)) (chunk : List Char) : List Char :=
  let cleaned := pyReplace chunk brkString blankLine
  match instructions with
  | some instr => if instr.isEmpty then cleaned else pyStrip instr ++ blankLine ++ cleaned
  | none => cleaned

-- MinimaxTTSProvider._prepare_text.
def minimaxPrepareText (chunk : List Char) : List Char :=
  pyStrip (pyReplace chunk brkString blankLine)

-- Qwen3TTSProvider._prepare_text (same code as MiniMax's).
def qwenPrepareText (chunk : List Char) : List Char :=
  pyStrip (pyReplace chunk brkString blankLine)

-- ### Bounded retry (MinimaxTTSProvider._synthesize_with_retry and
-- Qwen3TTSProvider._synthesize_with_retry, which are identical).
-- `synth a` is the outcome of attempt number `a` of the backend call.

def MAX_RETRIES : Nat := 4
def RETRY_BACKOFF_SECONDS : Nat := 2

-- The error raised after the loop: the last observed error, or the
-- RuntimeError fallback when no attempt ran (unreachable with MAX_RETRIES =
-- 4 but present in the source).
inductive RetryErr (E : Type) where
  | last (e : E)
  | noAttemptFailure
deriving DecidableEq, Repr

structure RetryOutcome (E B : Type) where
  result : Except (RetryErr E) B
  attempts : Nat
  sleeps : List Nat
deriving DecidableEq, Repr

-- The `for attempt in range(1, MAX_RETRIES + 1)` loop: return on success;
-- on failure remember the error and, when attempt < MAX_RETRIES, sleep
-- RETRY_BACKOFF_SECONDS * attempt before the next attempt.
def retryLoop {E B : Type} (synth : Nat → Except E B) (maxR bo : Nat) :
    List Nat → Option E → Nat → List Nat → RetryOutcome E B
  | [], lastE, att, slps =>
      ⟨.error (match lastE with
               | some e => .last e
               | none => .noAttemptFailure), att, slps.reverse⟩
  | a :: rest, _, att, slps =>
      match synth a with
      | .ok b => ⟨.ok b, att + 1, slps.reverse⟩
      | .error e =>
          if a < maxR then retryLoop synth maxR bo rest (some e) (att + 1) (bo * a :: slps)
          else retryLoop synth maxR bo rest (some e) (att + 1) slps

def synthesizeWithRetry {E B : Type} (synth : Nat → Except E B) : RetryOutcome E B :=
  retryLoop synth MAX_RETRIES RETRY_BACKOFF_SECONDS (List.range' 1 MAX_RETRIES) none 0 []

def minimaxSynthesizeWithRetry {E B : Type} (synth : Nat → Except E B) : RetryOutcome E B :=
  synthesizeWithRetry synth

def qwenSynthesizeWithRetry {E B : Type} (synth : Nat → Except E B) : RetryOutcome E B :=
  synthesizeWithRetry synth

-- ### text_to_speech as an event trace
-- The per-chapter loop of the three providers' text_to_speech, modelled over
-- the chunk list produced by split_text (utils.split_text is not under src/,
-- so the chunks are abstracted into their 1-based indices 1..n) after the
-- non-empty-text guard.  `synth i` bundles one backend call for chunk `i`
-- (for Gemini: generate_content plus payload extraction, either of which may
-- raise).  The trace records the synthesis attempts, then the
-- merge_audio_segments call, then the set_audio_tags call.

inductive TTSEvent where
  | synthesisCall (chunk : Nat) (attempt : Nat)
  | mergeCall
  | setTagsCall
deriving DecidableEq, Repr

-- GeminiTTSProvider.text_to_speech: one synthesis attempt per chunk, no
-- retry; the first exception propagates and aborts the loop.
def geminiTTSGo {E B : Type} (synth : Nat → Except E B) :
    List Nat → List TTSEvent → List TTSEvent × Option E
  | [], evs => (evs ++ [.mergeCall, .setTagsCall], none)
  | i :: rest, evs =>
      match synth i with
      | .ok _ => geminiTTSGo synth rest (evs ++ [.synthesisCall i 1])
      | .error e => (evs ++ [.synthesisCall i 1], some e)

def geminiTextToSpeech {E B : Type} (synth : Nat → Except E B) (numChunks : Nat) :
    List TTSEvent × Option E :=
  geminiTTSGo synth (List.range' 1 numChunks) []

-- MinimaxTTSProvider.text_to_speech / Qwen3TTSProvider.text_to_speech: each
-- chunk goes through _synthesize_with_retry; `synth i a` is attempt `a` for
-- chunk `i`.
def retryTTSGo {E B : Type} (synth : Nat → Nat → Except E B) :
    List Nat → List TTSEvent → List TTSEvent × Option (RetryErr E)
  | [], evs => (evs ++ [.mergeCall, .setTagsCall], none)
  | i :: rest, evs =>
      let r := synthesizeWithRetry (synth i)
      let evs2 := evs ++ (List.range' 1 r.attempts).map (fun a => TTSEvent.synthesisCall i a)
      match r.result with
      | .ok _ => retryTTSGo synth rest evs2
      | .error e => (evs2, some e)

def minimaxTextToSpeech {E B : Type} (synth : Nat → Nat → Except E B) (numChunks : Nat) :
    List TTSEvent × Option (RetryErr E) :=
  retryTTSGo synth (List.range' 1 numChunks) []

def qwenTextToSpeech {E B : Type} (synth : Nat → Nat → Except E B) (numChunks : Nat) :
    List TTSEvent × Option (RetryErr E) :=
  retryTTSGo synth (List.range' 1 numChunks) []

-- ### Startup configuration validation and numeric parameter resolution

inductive ConfigErr where
  | unsupportedFormat
  | invalidSampleRate
  | invalidChannels
  | unsupportedVoice
  | unsupportedSpeakerVoice
  | unsupportedModel
  | unsupportedLanguageBoost
  | unsupportedLanguageType
  | unsupportedEncoding
deriving DecidableEq, Repr

def geminiSupportedVoices : List String :=
  ["Zephyr", "Puck", "Charon", "Kore", "Fenrir", "Leda", "Orus", "Aoede",
   "Callirrhoe", "Autonoe", "Enceladus", "Iapetus", "Umbriel", "Algieba",
   "Despina", "Erinome", "Algenib", "Rasalgethi", "Laomedeia", "Achernar",
   "Alnilam", "Schedar", "Gacrux", "Pulcherrima", "Achird", "Zubenelgenubi",
   "Vindemiatrix", "Sadachbia", "Sadaltager", "Sulafat"]

def geminiSupportedOutputFormats : List String := ["wav", "mp3", "flac", "ogg", "opus", "aac"]

structure GeminiCfg where
  outputFormat : String
  sampleRate : Int
  channels : Nat
  voiceName : String
  speakerMap : List (String × String)
deriving DecidableEq, Repr

-- GeminiTTSProvider.validate_config, check for check in source order.
def geminiValidateConfig (cfg : GeminiCfg) : Except ConfigErr Unit :=
  if cfg.outputFormat ∉ geminiSupportedOutputFormats then .error .unsupportedFormat
  else if cfg.sampleRate ≤ 0 then .error .invalidSampleRate
  else if cfg.channels ≠ 1 ∧ cfg.channels ≠ 2 then .error .invalidChannels
  else if cfg.voiceName ≠ "" ∧ cfg.voiceName ∉ geminiSupportedVoices then
    .error .unsupportedVoice
  else if cfg.speakerMap.any (fun p => decide (p.snd ∉ geminiSupportedVoices)) then
    .error .unsupportedSpeakerVoice
  else .ok ()

-- GeminiTTSProvider._resolve_sample_width: raises at construction time for
-- an unsupported encoding.
def geminiResolveSampleWidth (encoding : String) : Except ConfigErr Nat :=
  if encoding = "pcm16" ∨ encoding = "linear16" ∨ encoding = "pcm_s16le" then .ok 2
  else if encoding = "pcm24" ∨ encoding = "pcm_s24le" then .ok 3
  else if encoding = "pcm32" ∨ encoding = "pcm_s32le" then .ok 4
  else .error .unsupportedEncoding

def minimaxSupportedVoices : List String :=
  ["Chinese (Mandarin)_Warm_Bestie", "Chinese (Mandarin)_Sincere_Adult",
   "Chinese (Mandarin)_Soft_Girl"]

def minimaxSupportedLanguageBoosts : List String :=
  ["Chinese", "Chinese,Yue", "English", "Arabic", "Russian", "Spanish", "French",
   "Portuguese", "German", "Turkish", "Dutch", "Ukrainian", "Vietnamese",
   "Indonesian", "Japanese", "Italian", "Korean", "Thai", "Polish", "Romanian",
   "Greek", "Czech", "Finnish", "Hindi", "Bulgarian", "Danish", "Hebrew",
   "Malay", "Slovak", "Swedish", "Croatian", "Hungarian", "Norwegian",
   "Slovenian", "Catalan", "Nynorsk", "Afrikaans", "auto"]

structure MinimaxCfg where
  voiceName : String
  languageBoost : Option String
  outputFormat : String
deriving DecidableEq, Repr

-- MinimaxTTSProvider.validate_config.  The language boost is only checked
-- when it is truthy (present and non-empty).
def minimaxValidateConfig (cfg : MinimaxCfg) : Except ConfigErr Unit :=
  if cfg.voiceName ∉ minimaxSupportedVoices then .error .unsupportedVoice
  else if (match cfg.languageBoost with
           | some b => b ≠ "" && decide (b ∉ minimaxSupportedLanguageBoosts)
           | none => false) then .error .unsupportedLanguageBoost
  else if cfg.outputFormat ∉ ["mp3", "wav"] then .error .unsupportedFormat
  else .ok ()

-- MinimaxTTSProvider._resolve_speed: the constructor clamps any provided
-- speed into [0.5, 2.0] (and defaults to 1.0), raising no error.  Python
-- floats are modelled by rationals; max/min and the returned values are
-- exact in both.
def minimaxResolveSpeed (raw : Option ℚ) : ℚ :=
  match raw with
  | none => 1
  | some s => max (1 / 2) (min 2 s)

-- MinimaxTTSProvider._resolve_volume: clamps into [0.1, 2.0], default 1.0.
def minimaxResolveVolume (raw : Option ℚ) : ℚ :=
  match raw with
  | none => 1
  | some v => max (1 / 10) (min 2 v)

-- MinimaxTTSProvider._resolve_pitch: clamps into [-12.0, 12.0], default 0.
def minimaxResolvePitch (raw : Option ℚ) : ℚ :=
  match raw with
  | none => 0
  | some p => max (-12) (min 12 p)

-- MinimaxTTSProvider._resolve_timeout: a non-positive timeout raises
-- ValueError, which the except clause turns into the default (60).
def minimaxResolveTimeout (raw : Option Int) : Int :=
  match raw with
  | none => 60
  | some t => if t ≤ 0 then 60 else t

-- Qwen3TTSProvider._resolve_timeout (default 30; `int(None)` also raises and
-- falls back to the default).
def qwenResolveTimeout (raw : Option Int) : Int :=
  match raw with
  | none => 30
  | some t => if t ≤ 0 then 30 else t

def qwenSupportedModels : List String := ["qwen3-tts-flash", "qwen3-tts-flash-2025-09-18"]

def qwenSupportedVoices : List String :=
  ["Cherry", "Ethan", "Nofish", "Jennifer", "Ryan", "Katerina", "Elias", "Jada",
   "Dylan", "Sunny", "li", "Marcus", "Roy", "Peter", "Rocky", "Kiki", "Eric"]

def qwenSupportedLanguageTypes : List String :=
  ["Chinese", "English", "Spanish", "Russian", "Italian", "French", "Korean",
   "Japanese", "German", "Portuguese"]

structure QwenCfg where
  modelName : String
  voiceName : String
  languageType : String
  outputFormat : String
deriving DecidableEq, Repr

-- Qwen3TTSProvider.validate_config.
def qwenValidateConfig (cfg : QwenCfg) : Except ConfigErr Unit :=
  if cfg.modelName ∉ qwenSupportedModels then .error .unsupportedModel
  else if cfg.voiceName ∉ qwenSupportedVoices then .error .unsupportedVoice
  else if cfg.languageType ∉ qwenSupportedLanguageTypes then .error .unsupportedLanguageType
  else if cfg.outputFormat ≠ "wav" then .error .unsupportedFormat
  else .ok ()



-- ### Spec-side formulations
-- Independent definitions following the wording of the specification, to be
-- compared with the embedded code in the refinement theorems below.

def consHeadPiece (c : Char) : List (List Char) → List (List Char)
  | [] => [[c]]
  | p :: ps => (c :: p) :: ps

-- Spec: newline mode `single` replaces "every run of one or more line
-- breaks" by the break marker.  This splitter cuts the text at the maximal
-- newline runs; the mode then amounts to joining the pieces with the
-- marker.
def splitNlRuns : List Char → List (List Char)
  | [] => [[]]
  | c :: rest =>
      if c == '\n' then
        match rest with
        | [] => [[], []]
        | c2 :: _ => if c2 == '\n' then splitNlRuns rest else [] :: splitNlRuns rest
      else consHeadPiece c (splitNlRuns rest)

def flushSingle (run : Nat) : List Char := if run = 1 then ['\n'] else []

-- Spec: newline mode `double` replaces "only runs of two or more line
-- breaks" by the break marker, keeping single line breaks inside the
-- pieces.  `acc` is the reversed current piece, `run` the count of pending
-- newlines.
def splitNl2Go (acc : List Char) (run : Nat) : List Char → List (List Char)
  | [] => if 2 ≤ run then [acc.reverse, []] else [acc.reverse ++ flushSingle run]
  | c :: rest =>
      if c == '\n' then splitNl2Go acc (run + 1) rest
      else if 2 ≤ run then acc.reverse :: splitNl2Go [c] 0 rest
      else splitNl2Go (c :: (flushSingle run ++ acc)) 0 rest

def splitNl2Runs (s : List Char) : List (List Char) := splitNl2Go [] 0 s

-- Spec-side reading of metadata capture: the value recorded for key `k` is
-- the one of the last front-matter line whose metadata match carries `k`.
def lastCapturedValue (k : List Char) (fmLines : List (List Char)) : Option (List Char) :=
  fmLines.reverse.findSome? (fun l =>
    match metaMatch l with
    | some (k2, v) => if k2 = k then some v else none
    | none => none)

-- The property the fallback titles actually satisfy: a fallback-titled
-- chapter at 0-based position i of the output carries "Chapter {i+1}" (its
-- number counts ALL previously emitted chapters, not only fallback ones).
-- `annOKFrom k cs` states it for a chapter list whose first element sits at
-- position k.
def annOKFrom (k : Nat) : List AnnChapter → Prop
  | [] => True
  | a :: rest =>
      (a.usedFallback = true → a.titleSource = chapterNumTitle (k + 1)) ∧ annOKFrom (k + 1) rest

def annIndexOK (cs : List AnnChapter) : Prop := annOKFrom 0 cs

def stInv (st : ChapState) : Prop :=
  st.fallbackIndex = st.chapters.length + 1 ∧ annIndexOK st.chapters

-- ### Concrete documents used by the claims

-- The example input of the specification (claim C4).
def docC4 : List Char :=
  ("---\ntitle: T\n---\n# Prologue\nHello.\n\n## One\nWorld **bold**.").data

-- A document with a non-empty body (a fenced code block) and an empty
-- metadata title: everything strips away and no chapter is produced.
def docC6 : List Char := ("---\ntitle:  \n---\n```\nx\n```").data

-- A document whose front matter repeats a key.
def docC7 : List Char := ("---\na: 1\na: 2\n---\nx").data

-- A document in which an empty-texted heading ("# " with no title text)
-- forces a fallback title in mid-document, after one heading-titled chapter.
def docC8 : List Char := ("# A\nx\n# \ny").data

-- A document with a preamble before the first heading (first chapter gets a
-- fallback title).
def docC8w : List Char := ("intro\n# A\nx").data

-- ### Sanity checks of the embedding on concrete inputs

example : extractFrontMatter ("---\ntitle: T\n---\nbody").data =
    ([(("title").data, ("T").data)], [("body").data]) := by decide

example : headingMatch ("## One").data = some (2, ("One").data) := by decide
example : headingMatch ("####### x").data = none := by decide
example : metaMatch ("title:  ").data = some (("title").data, []) := by decide
example : metaMatch ("title:").data = none := by decide
example : stripMarkdown ("World **bold**.").data = ("World bold.").data := by decide
example : stripMarkdown ("a [link](http://x) b").data = ("a link b").data := by decide
example : stripMarkdown ("> quoted\n- item\n1. first\n### deep").data =
    ("quoted\nitem\nfirst\ndeep").data := by decide
example :
    synthesizeWithRetry (fun _ => (.error 9 : Except Nat Nat)) =
      ⟨.error (.last 9), 4, [2, 4, 6]⟩ := by decide
example :
    synthesizeWithRetry (fun a => if a = 3 then (.ok 5 : Except Nat Nat) else .error a) =
      ⟨.ok 5, 3, [2, 4]⟩ := by decide
example : minimaxPrepareText (" @BRK#a @BRK#b").data = ("a\n\nb").data := by decide

-- ### Claim C4 (chapter extraction on the specification's example document)

/-- Claim C4, counterexample.  On the spec's example document with newline
mode `double` and break marker " @BRK#", get_chapters does NOT return the
claimed pairs ("Prologue", "Prologue Hello.") and ("One", "One World bold."):
the heading is joined to the body with a blank line, which `double` mode
turns into the break marker. -/
theorem c4_spec_example_counterexample :
    getChaptersFromDoc defaultCfg brkString docC4 ≠
      .ok [(("Prologue").data, ("Prologue Hello.").data),
           (("One").data, ("One World bold.").data)] := by decide

/-- Claim C4, amended.  On the spec's example document with newline mode
`double` and break marker " @BRK#", get_chapters returns exactly two
chapters ("Prologue", "Prologue @BRK# Hello.") and
("One", "One @BRK# World bold."): the bold markers are stripped, and the
trimmed break marker appears once in each chapter's text, between the
heading and the paragraph (the heading is joined to the body with a blank
line, which `double` mode replaces by the marker). -/
theorem c4_spec_example_chapters :
    getChaptersFromDoc defaultCfg brkString docC4 =
      .ok [(("Prologue").data, ("Prologue @BRK# Hello.").data),
           (("One").data, ("One @BRK# World bold.").data)] := by decide

-- ### Claim C6, counterexample part

/-- Claim C6, counterexample.  A document whose body (a fenced code block)
is non-empty but strips to nothing, together with an empty metadata title,
produces NO chapter at all: get_chapters returns the empty list even though
the body text is non-empty. -/
theorem c6_nonempty_body_no_chapter_counterexample :
    getChaptersFromDoc defaultCfg brkString docC6 = .ok [] ∧
      (extractFrontMatter docC6).snd ≠ [] ∧
      joinSep ['\n'] (extractFrontMatter docC6).snd ≠ [] := by decide

-- ### Claim C3, counterexample part

/-- Claim C3, counterexample.  GeminiTTSProvider.text_to_speech performs no
retry: a single failing synthesis call (chunk 1, attempt 1) immediately
fails the chapter, with the exception propagated — the backend fails the
chapter on the first exception instead of retrying up to the bounded
limit. -/
theorem c3_gemini_no_retry_counterexample :
    geminiTextToSpeech (fun _ => (.error 0 : Except Nat Nat)) 1 =
      ([.synthesisCall 1 1], some 0) ∧
    (geminiTextToSpeech (fun _ => (.error 0 : Except Nat Nat)) 1).fst.length = 1 := by decide

-- ### Claim C9, counterexample part

/-- Claim C9, counterexample.  MiniMax numeric parameters are silently
replaced rather than rejected: speed 10 (outside the documented 0.5-2.0
range) is clamped to 2, volume 100 is clamped to 2, pitch -100 is clamped to
-12, and the invalid timeout -5 becomes the default 60 — no startup error is
raised for any of them. -/
theorem c9_minimax_silent_clamp_counterexample :
    minimaxResolveSpeed (some 10) = 2 ∧
    minimaxResolveVolume (some 100) = 2 ∧
    minimaxResolvePitch (some (-100)) = -12 ∧
    minimaxResolveTimeout (some (-5)) = 60 := by
  refine ⟨?_, ?_, ?_, ?_⟩ <;> norm_num [minimaxResolveSpeed, minimaxResolveVolume,
    minimaxResolvePitch, minimaxResolveTimeout]

-- ### Claim C2 (bounded retry protocol of MiniMax and Qwen)

/-- Claim C2.  For MinimaxTTSProvider and Qwen3TTSProvider (whose
_synthesize_with_retry bodies are identical), when every attempt fails the
loop makes exactly 4 attempts, sleeps RETRY_BACKOFF_SECONDS * attempt = 2, 4,
6 seconds between consecutive attempts (none after the last), and raises the
last observed error; when the backend fails exactly k < 4 times and then
succeeds, the successful buffer of attempt k+1 is returned after k+1
attempts, with sleeps 2*1, ..., 2*k. -/
theorem c2_retry_protocol {E B : Type} (synth : Nat → Except E B) :
    (∀ err : Nat → E, (∀ a, 1 ≤ a → a ≤ 4 → synth a = .error (err a)) →
        minimaxSynthesizeWithRetry synth = ⟨.error (.last (err 4)), 4, [2, 4, 6]⟩ ∧
        qwenSynthesizeWithRetry synth = ⟨.error (.last (err 4)), 4, [2, 4, 6]⟩) ∧
    (∀ k b, k < 4 → (∀ a, 1 ≤ a → a ≤ k → ∃ e, synth a = .error e) →
        synth (k + 1) = .ok b →
        minimaxSynthesizeWithRetry synth =
          ⟨.ok b, k + 1, (List.range' 1 k).map (fun a => 2 * a)⟩ ∧
        qwenSynthesizeWithRetry synth =
          ⟨.ok b, k + 1, (List.range' 1 k).map (fun a => 2 * a)⟩) := by
  constructor
  · intro err h
    have h1 := h 1 (by omega) (by omega)
    have h2 := h 2 (by omega) (by omega)
    have h3 := h 3 (by omega) (by omega)
    have h4 := h 4 (by omega) (by omega)
    constructor <;>
      simp [minimaxSynthesizeWithRetry, qwenSynthesizeWithRetry, synthesizeWithRetry,
        MAX_RETRIES, RETRY_BACKOFF_SECONDS, List.range', retryLoop, h1, h2, h3, h4]
  · intro k b hk hfail hok
    interval_cases k
    · constructor <;>
        simp [minimaxSynthesizeWithRetry, qwenSynthesizeWithRetry, synthesizeWithRetry,
          MAX_RETRIES, RETRY_BACKOFF_SECONDS, List.range', retryLoop, hok]
    · obtain ⟨e1, he1⟩ := hfail 1 (by omega) (by omega)
      constructor <;>
        simp [minimaxSynthesizeWithRetry, qwenSynthesizeWithRetry, synthesizeWithRetry,
          MAX_RETRIES, RETRY_BACKOFF_SECONDS, List.range', retryLoop, he1, hok]
    · obtain ⟨e1, he1⟩ := hfail 1 (by omega) (by omega)
      obtain ⟨e2, he2⟩ := hfail 2 (by omega) (by omega)
      constructor <;>
        simp [minimaxSynthesizeWithRetry, qwenSynthesizeWithRetry, synthesizeWithRetry,
          MAX_RETRIES, RETRY_BACKOFF_SECONDS, List.range', retryLoop, he1, he2, hok]
    · obtain ⟨e1, he1⟩ := hfail 1 (by omega) (by omega)
      obtain ⟨e2, he2⟩ := hfail 2 (by omega) (by omega)
      obtain ⟨e3, he3⟩ := hfail 3 (by omega) (by omega)
      constructor <;>
        simp [minimaxSynthesizeWithRetry, qwenSynthesizeWithRetry, synthesizeWithRetry,
          MAX_RETRIES, RETRY_BACKOFF_SECONDS, List.range', retryLoop, he1, he2, he3, hok]

/-- Witness for c2_retry_protocol at concrete backends: a backend failing
attempts 1 and 2 and succeeding at attempt 3, and an always-failing
backend. -/
theorem c2_retry_protocol_witness :
    minimaxSynthesizeWithRetry (fun a => if a = 3 then (.ok 5 : Except Nat Nat) else .error a) =
      ⟨.ok 5, 3, [2, 4]⟩ ∧
    qwenSynthesizeWithRetry (fun _ => (.error 9 : Except Nat Nat)) =
      ⟨.error (.last 9), 4, [2, 4, 6]⟩ := by
  constructor
  · have h := (c2_retry_protocol
        (fun a => if a = 3 then (.ok 5 : Except Nat Nat) else .error a)).2 2 5
        (by omega) (fun a h1 h2 => ⟨a, by simp [show a ≠ 3 by omega]⟩) (by simp)
    exact h.1.trans (by decide)
  · exact ((c2_retry_protocol (fun _ => (.error 9 : Except Nat Nat))).1
      (fun _ => 9) (fun a _ _ => rfl)).2

-- ### Claim C3, amended part

/-- Claim C3, amended.  MiniMax and Qwen treat every exception from a
synthesis attempt as transient and retry up to 4 attempts before failing;
GeminiTTSProvider performs no retry at all: the first exception is
propagated immediately and fails the chapter after a single synthesis
call. -/
theorem c3_retry_uniformity_amended {E B : Type} (synth : Nat → Except E B) :
    ((∀ a, 1 ≤ a → a ≤ 4 → ∃ e, synth a = .error e) →
        (minimaxSynthesizeWithRetry synth).attempts = 4 ∧
        (∃ e, (minimaxSynthesizeWithRetry synth).result = .error (.last e)) ∧
        (qwenSynthesizeWithRetry synth).attempts = 4 ∧
        (∃ e, (qwenSynthesizeWithRetry synth).result = .error (.last e))) ∧
    (∀ (e : E) (n : Nat), 1 ≤ n →
        geminiTextToSpeech (fun _ => (.error e : Except E B)) n =
          ([.synthesisCall 1 1], some e)) := by
  constructor
  · intro hfail
    obtain ⟨e1, he1⟩ := hfail 1 (by omega) (by omega)
    obtain ⟨e2, he2⟩ := hfail 2 (by omega) (by omega)
    obtain ⟨e3, he3⟩ := hfail 3 (by omega) (by omega)
    obtain ⟨e4, he4⟩ := hfail 4 (by omega) (by omega)
    refine ⟨?_, ⟨e4, ?_⟩, ?_, ⟨e4, ?_⟩⟩ <;>
      simp [minimaxSynthesizeWithRetry, qwenSynthesizeWithRetry, synthesizeWithRetry,
        MAX_RETRIES, RETRY_BACKOFF_SECONDS, List.range', retryLoop, he1, he2, he3, he4]
  · intro e n hn
    obtain ⟨m, rfl⟩ : ∃ m, n = m + 1 := ⟨n - 1, by omega⟩
    simp [geminiTextToSpeech, List.range'_succ, geminiTTSGo]

/-- Witness for c3_retry_uniformity_amended: an always-failing backend makes
exactly 4 MiniMax attempts, and a failing Gemini chapter of 2 chunks dies
after the single call for chunk 1. -/
theorem c3_retry_uniformity_witness :
    (minimaxSynthesizeWithRetry (fun a => (.error a : Except Nat Nat))).attempts = 4 ∧
    geminiTextToSpeech (fun _ => (.error 7 : Except Nat Nat)) 2 =
      ([.synthesisCall 1 1], some 7) := by
  refine ⟨((c3_retry_uniformity_amended (fun a => (.error a : Except Nat Nat))).1
      (fun a _ _ => ⟨a, rfl⟩)).1, ?_⟩
  exact (c3_retry_uniformity_amended (fun a => (.error a : Except Nat Nat))).2 7 2 (by omega)

-- ### Claim C9, amended part

/-- Claim C9, amended.  Invalid voice, model, output-format, encoding and
language values do raise fatal errors at startup (validate_config or the
constructor), but the MiniMax numeric parameters are never fatal: speed,
volume and pitch are silently clamped into [0.5, 2], [0.1, 2] and [-12, 12]
respectively, and non-positive request timeouts silently fall back to the
defaults. -/
theorem c9_validation_and_clamping :
    (∀ cfg : GeminiCfg, cfg.outputFormat ∉ geminiSupportedOutputFormats →
        geminiValidateConfig cfg = .error .unsupportedFormat) ∧
    (∀ cfg : MinimaxCfg, cfg.voiceName ∉ minimaxSupportedVoices →
        minimaxValidateConfig cfg = .error .unsupportedVoice) ∧
    (∀ cfg : QwenCfg, cfg.modelName ∉ qwenSupportedModels →
        qwenValidateConfig cfg = .error .unsupportedModel) ∧
    (∀ cfg : MinimaxCfg, cfg.voiceName ∈ minimaxSupportedVoices →
        ∀ b, cfg.languageBoost = some b → b ≠ "" →
        b ∉ minimaxSupportedLanguageBoosts →
        minimaxValidateConfig cfg = .error .unsupportedLanguageBoost) ∧
    (∀ cfg : QwenCfg, cfg.modelName ∈ qwenSupportedModels →
        cfg.voiceName ∈ qwenSupportedVoices →
        cfg.languageType ∉ qwenSupportedLanguageTypes →
        qwenValidateConfig cfg = .error .unsupportedLanguageType) ∧
    (∀ encoding : String,
        encoding ≠ "pcm16" → encoding ≠ "linear16" → encoding ≠ "pcm_s16le" →
        encoding ≠ "pcm24" → encoding ≠ "pcm_s24le" →
        encoding ≠ "pcm32" → encoding ≠ "pcm_s32le" →
        geminiResolveSampleWidth encoding = .error .unsupportedEncoding) ∧
    (∀ q : ℚ, 1 / 2 ≤ minimaxResolveSpeed (some q) ∧ minimaxResolveSpeed (some q) ≤ 2) ∧
    (∀ q : ℚ, 1 / 10 ≤ minimaxResolveVolume (some q) ∧ minimaxResolveVolume (some q) ≤ 2) ∧
    (∀ q : ℚ, -12 ≤ minimaxResolvePitch (some q) ∧ minimaxResolvePitch (some q) ≤ 12) ∧
    (∀ t : Int, 0 < minimaxResolveTimeout (some t) ∧ 0 < qwenResolveTimeout (some t)) := by
  refine ⟨?_, ?_, ?_, ?_, ?_, ?_, ?_, ?_, ?_, ?_⟩
  · intro cfg h; simp [geminiValidateConfig, h]
  · intro cfg h; simp [minimaxValidateConfig, h]
  · intro cfg h; simp [qwenValidateConfig, h]
  · intro cfg hv b hb hne hnm
    simp [minimaxValidateConfig, hv, hb, hne, hnm]
  · intro cfg hm hv hl
    simp [qwenValidateConfig, hm, hv, hl]
  · intro enc h1 h2 h3 h4 h5 h6 h7
    simp [geminiResolveSampleWidth, h1, h2, h3, h4, h5, h6, h7]
  · intro q
    exact ⟨le_max_left _ _, max_le (by norm_num) (min_le_left _ _)⟩
  · intro q
    exact ⟨le_max_left _ _, max_le (by norm_num) (min_le_left _ _)⟩
  · intro q
    exact ⟨le_max_left _ _, max_le (by norm_num) (min_le_left _ _)⟩
  · intro t
    constructor
    · simp only [minimaxResolveTimeout]
      by_cases h : t ≤ 0 <;> simp [h] <;> omega
    · simp only [qwenResolveTimeout]
      by_cases h : t ≤ 0 <;> simp [h] <;> omega

/-- Witness for c9_validation_and_clamping at concrete inputs: an
unsupported MiniMax voice is fatal, an unsupported MiniMax language boost and
an unsupported Qwen language type are fatal, while the out-of-range speed 10
stays in the clamp range rather than failing. -/
theorem c9_validation_and_clamping_witness :
    minimaxValidateConfig ⟨"Totally Unsupported", none, "mp3"⟩ = .error .unsupportedVoice ∧
    minimaxValidateConfig ⟨"Chinese (Mandarin)_Warm_Bestie", some "Klingon", "mp3"⟩ =
      .error .unsupportedLanguageBoost ∧
    qwenValidateConfig ⟨"qwen3-tts-flash", "Cherry", "Klingon", "wav"⟩ =
      .error .unsupportedLanguageType ∧
    (1 / 2 ≤ minimaxResolveSpeed (some 10) ∧ minimaxResolveSpeed (some 10) ≤ 2) := by
  exact ⟨c9_validation_and_clamping.2.1 ⟨"Totally Unsupported", none, "mp3"⟩ (by decide),
    c9_validation_and_clamping.2.2.2.1 ⟨"Chinese (Mandarin)_Warm_Bestie", some "Klingon", "mp3"⟩
      (by decide) "Klingon" rfl (by decide) (by decide),
    c9_validation_and_clamping.2.2.2.2.1 ⟨"qwen3-tts-flash", "Cherry", "Klingon", "wav"⟩
      (by decide) (by decide) (by decide),
    c9_validation_and_clamping.2.2.2.2.2.2.1 10⟩

-- ### Claim C1 (merge and tag ordering of text_to_speech)

theorem geminiTTSGo_err {E B : Type} (synth : Nat → Except E B) :
    ∀ (l : List Nat) (evs : List TTSEvent) (e : E),
      TTSEvent.mergeCall ∉ evs → TTSEvent.setTagsCall ∉ evs →
      (geminiTTSGo synth l evs).snd = some e →
      TTSEvent.mergeCall ∉ (geminiTTSGo synth l evs).fst ∧
      TTSEvent.setTagsCall ∉ (geminiTTSGo synth l evs).fst ∧
      ∃ i ∈ l, synth i = .error e := by
  intro l
  induction l with
  | nil =>
      intro evs e h1 h2 hsnd
      simp [geminiTTSGo] at hsnd
  | cons i rest ih =>
      intro evs e h1 h2 hsnd
      cases hs : synth i with
      | ok b =>
          have hred : geminiTTSGo synth (i :: rest) evs =
              geminiTTSGo synth rest (evs ++ [TTSEvent.synthesisCall i 1]) := by
            simp [geminiTTSGo, hs]
          rw [hred] at hsnd ⊢
          have h1b : TTSEvent.mergeCall ∉ evs ++ [TTSEvent.synthesisCall i 1] := by
            simp [List.mem_append, h1]
          have h2b : TTSEvent.setTagsCall ∉ evs ++ [TTSEvent.synthesisCall i 1] := by
            simp [List.mem_append, h2]
          obtain ⟨hm, ht, j, hj, hje⟩ := ih _ e h1b h2b hsnd
          exact ⟨hm, ht, j, List.mem_cons_of_mem _ hj, hje⟩
      | error e2 =>
          have hred : geminiTTSGo synth (i :: rest) evs =
              (evs ++ [TTSEvent.synthesisCall i 1], some e2) := by
            simp [geminiTTSGo, hs]
          rw [hred] at hsnd ⊢
          simp only [Option.some.injEq] at hsnd
          subst hsnd
          refine ⟨?_, ?_, i, List.mem_cons_self i rest, hs⟩
          · simp [List.mem_append, h1]
          · simp [List.mem_append, h2]

theorem geminiTTSGo_ok {E B : Type} (synth : Nat → Except E B) :
    ∀ (l : List Nat) (evs : List TTSEvent),
      (geminiTTSGo synth l evs).snd = none →
      (geminiTTSGo synth l evs).fst =
        evs ++ l.map (fun i => TTSEvent.synthesisCall i 1) ++
          [TTSEvent.mergeCall, TTSEvent.setTagsCall] := by
  intro l
  induction l with
  | nil =>
      intro evs _
      simp [geminiTTSGo]
  | cons i rest ih =>
      intro evs hsnd
      cases hs : synth i with
      | ok b =>
          have hred : geminiTTSGo synth (i :: rest) evs =
              geminiTTSGo synth rest (evs ++ [TTSEvent.synthesisCall i 1]) := by
            simp [geminiTTSGo, hs]
          rw [hred] at hsnd ⊢
          rw [ih _ hsnd]
          simp
      | error e2 =>
          have hred : geminiTTSGo synth (i :: rest) evs =
              (evs ++ [TTSEvent.synthesisCall i 1], some e2) := by
            simp [geminiTTSGo, hs]
          rw [hred] at hsnd
          simp at hsnd

theorem retryTTSGo_err {E B : Type} (synth : Nat → Nat → Except E B) :
    ∀ (l : List Nat) (evs : List TTSEvent) (e : RetryErr E),
      TTSEvent.mergeCall ∉ evs → TTSEvent.setTagsCall ∉ evs →
      (retryTTSGo synth l evs).snd = some e →
      TTSEvent.mergeCall ∉ (retryTTSGo synth l evs).fst ∧
      TTSEvent.setTagsCall ∉ (retryTTSGo synth l evs).fst ∧
      ∃ i ∈ l, (synthesizeWithRetry (synth i)).result = .error e := by
  intro l
  induction l with
  | nil =>
      intro evs e h1 h2 hsnd
      simp [retryTTSGo] at hsnd
  | cons i rest ih =>
      intro evs e h1 h2 hsnd
      have h1b : TTSEvent.mergeCall ∉
          evs ++ (List.range' 1 (synthesizeWithRetry (synth i)).attempts).map
            (fun a => TTSEvent.synthesisCall i a) := by
        simp [List.mem_append, h1]
      have h2b : TTSEvent.setTagsCall ∉
          evs ++ (List.range' 1 (synthesizeWithRetry (synth i)).attempts).map
            (fun a => TTSEvent.synthesisCall i a) := by
        simp [List.mem_append, h2]
      cases hs : (synthesizeWithRetry (synth i)).result with
      | ok b =>
          have hred : retryTTSGo synth (i :: rest) evs =
              retryTTSGo synth rest
                (evs ++ (List.range' 1 (synthesizeWithRetry (synth i)).attempts).map
                  (fun a => TTSEvent.synthesisCall i a)) := by
            simp [retryTTSGo, hs]
          rw [hred] at hsnd ⊢
          obtain ⟨hm, ht, j, hj, hje⟩ := ih _ e h1b h2b hsnd
          exact ⟨hm, ht, j, List.mem_cons_of_mem _ hj, hje⟩
      | error e2 =>
          have hred : retryTTSGo synth (i :: rest) evs =
              (evs ++ (List.range' 1 (synthesizeWithRetry (synth i)).attempts).map
                (fun a => TTSEvent.synthesisCall i a), some e2) := by
            simp [retryTTSGo, hs]
          rw [hred] at hsnd ⊢
          simp only [Option.some.injEq] at hsnd
          subst hsnd
          exact ⟨h1b, h2b, i, List.mem_cons_self i rest, hs⟩

theorem retryTTSGo_ok {E B : Type} (synth : Nat → Nat → Except E B) :
    ∀ (l : List Nat) (evs : List TTSEvent),
      TTSEvent.mergeCall ∉ evs → TTSEvent.setTagsCall ∉ evs →
      (retryTTSGo synth l evs).snd = none →
      ∃ pre, (retryTTSGo synth l evs).fst =
          pre ++ [TTSEvent.mergeCall, TTSEvent.setTagsCall] ∧
        TTSEvent.mergeCall ∉ pre ∧ TTSEvent.setTagsCall ∉ pre := by
  intro l
  induction l with
  | nil =>
      intro evs h1 h2 _
      exact ⟨evs, by simp [retryTTSGo], h1, h2⟩
  | cons i rest ih =>
      intro evs h1 h2 hsnd
      have h1b : TTSEvent.mergeCall ∉
          evs ++ (List.range' 1 (synthesizeWithRetry (synth i)).attempts).map
            (fun a => TTSEvent.synthesisCall i a) := by
        simp [List.mem_append, h1]
      have h2b : TTSEvent.setTagsCall ∉
          evs ++ (List.range' 1 (synthesizeWithRetry (synth i)).attempts).map
            (fun a => TTSEvent.synthesisCall i a) := by
        simp [List.mem_append, h2]
      cases hs : (synthesizeWithRetry (synth i)).result with
      | ok b =>
          have hred : retryTTSGo synth (i :: rest) evs =
              retryTTSGo synth rest
                (evs ++ (List.range' 1 (synthesizeWithRetry (synth i)).attempts).map
                  (fun a => TTSEvent.synthesisCall i a)) := by
            simp [retryTTSGo, hs]
          rw [hred] at hsnd ⊢
          exact ih _ h1b h2b hsnd
      | error e2 =>
          have hred : retryTTSGo synth (i :: rest) evs =
              (evs ++ (List.range' 1 (synthesizeWithRetry (synth i)).attempts).map
                (fun a => TTSEvent.synthesisCall i a), some e2) := by
            simp [retryTTSGo, hs]
          rw [hred] at hsnd
          simp at hsnd

/-- Claim C1.  For every provider (Gemini, MiniMax, Qwen): if some chunk's
synthesis raises, text_to_speech propagates that error and the event trace
contains neither the merge call nor the tag-attachment call (so no chapter
output file is produced and no tags are attached); when all chunks succeed,
the trace ends with the merge call immediately followed by the
set_audio_tags call — tag attachment is strictly last, after the merge. -/
theorem c1_error_propagation_and_merge_order {E B : Type}
    (synth : Nat → Except E B) (synth2 : Nat → Nat → Except E B) (n : Nat) :
    (∀ e, (geminiTextToSpeech synth n).snd = some e →
        TTSEvent.mergeCall ∉ (geminiTextToSpeech synth n).fst ∧
        TTSEvent.setTagsCall ∉ (geminiTextToSpeech synth n).fst ∧
        ∃ i, 1 ≤ i ∧ i ≤ n ∧ synth i = .error e) ∧
    ((geminiTextToSpeech synth n).snd = none →
        (geminiTextToSpeech synth n).fst =
          (List.range' 1 n).map (fun i => TTSEvent.synthesisCall i 1) ++
            [TTSEvent.mergeCall, TTSEvent.setTagsCall]) ∧
    (∀ e, (minimaxTextToSpeech synth2 n).snd = some e →
        TTSEvent.mergeCall ∉ (minimaxTextToSpeech synth2 n).fst ∧
        TTSEvent.setTagsCall ∉ (minimaxTextToSpeech synth2 n).fst ∧
        ∃ i, 1 ≤ i ∧ i ≤ n ∧ (synthesizeWithRetry (synth2 i)).result = .error e) ∧
    ((minimaxTextToSpeech synth2 n).snd = none →
        ∃ pre, (minimaxTextToSpeech synth2 n).fst =
            pre ++ [TTSEvent.mergeCall, TTSEvent.setTagsCall] ∧
          TTSEvent.mergeCall ∉ pre ∧ TTSEvent.setTagsCall ∉ pre) ∧
    (∀ e, (qwenTextToSpeech synth2 n).snd = some e →
        TTSEvent.mergeCall ∉ (qwenTextToSpeech synth2 n).fst ∧
        TTSEvent.setTagsCall ∉ (qwenTextToSpeech synth2 n).fst ∧
        ∃ i, 1 ≤ i ∧ i ≤ n ∧ (synthesizeWithRetry (synth2 i)).result = .error e) ∧
    ((qwenTextToSpeech synth2 n).snd = none →
        ∃ pre, (qwenTextToSpeech synth2 n).fst =
            pre ++ [TTSEvent.mergeCall, TTSEvent.setTagsCall] ∧
          TTSEvent.mergeCall ∉ pre ∧ TTSEvent.setTagsCall ∉ pre) := by
  have hmem : ∀ i, i ∈ List.range' 1 n → 1 ≤ i ∧ i ≤ n := by
    intro i hi
    have := List.mem_range'_1.mp hi
    omega
  refine ⟨?_, ?_, ?_, ?_, ?_, ?_⟩
  · intro e hsnd
    obtain ⟨hm, ht, i, hi, hie⟩ :=
      geminiTTSGo_err synth (List.range' 1 n) [] e (by simp) (by simp) hsnd
    exact ⟨hm, ht, i, (hmem i hi).1, (hmem i hi).2, hie⟩
  · intro hsnd
    have := geminiTTSGo_ok synth (List.range' 1 n) [] hsnd
    simpa using this
  · intro e hsnd
    obtain ⟨hm, ht, i, hi, hie⟩ :=
      retryTTSGo_err synth2 (List.range' 1 n) [] e (by simp) (by simp) hsnd
    exact ⟨hm, ht, i, (hmem i hi).1, (hmem i hi).2, hie⟩
  · intro hsnd
    exact retryTTSGo_ok synth2 (List.range' 1 n) [] (by simp) (by simp) hsnd
  · intro e hsnd
    obtain ⟨hm, ht, i, hi, hie⟩ :=
      retryTTSGo_err synth2 (List.range' 1 n) [] e (by simp) (by simp) hsnd
    exact ⟨hm, ht, i, (hmem i hi).1, (hmem i hi).2, hie⟩
  · intro hsnd
    exact retryTTSGo_ok synth2 (List.range' 1 n) [] (by simp) (by simp) hsnd

/-- Witness for c1_error_propagation_and_merge_order: a Gemini chapter of 3
chunks whose second chunk fails (no merge, no tags, the error surfaces), a
fully successful Gemini chapter of 2 chunks (synthesis calls, then merge,
then tags), and a fully successful MiniMax chapter of 2 chunks. -/
theorem c1_error_propagation_witness :
    (TTSEvent.mergeCall ∉
        (geminiTextToSpeech (fun i => if i = 2 then (.error 7 : Except Nat Nat) else .ok 0) 3).fst ∧
      TTSEvent.setTagsCall ∉
        (geminiTextToSpeech (fun i => if i = 2 then (.error 7 : Except Nat Nat) else .ok 0) 3).fst ∧
      ∃ i, 1 ≤ i ∧ i ≤ 3 ∧
        (fun i => if i = 2 then (.error 7 : Except Nat Nat) else .ok 0) i = .error 7) ∧
    ((geminiTextToSpeech (fun _ => (.ok 0 : Except Nat Nat)) 2).fst =
      (List.range' 1 2).map (fun i => TTSEvent.synthesisCall i 1) ++
        [TTSEvent.mergeCall, TTSEvent.setTagsCall]) ∧
    (∃ pre, (minimaxTextToSpeech (fun _ _ => (.ok 0 : Except Nat Nat)) 2).fst =
        pre ++ [TTSEvent.mergeCall, TTSEvent.setTagsCall] ∧
      TTSEvent.mergeCall ∉ pre ∧ TTSEvent.setTagsCall ∉ pre) := by
  refine ⟨(c1_error_propagation_and_merge_order
      (fun i => if i = 2 then (.error 7 : Except Nat Nat) else .ok 0)
      (fun _ _ => (.ok 0 : Except Nat Nat)) 3).1 7 (by decide), ?_, ?_⟩
  · exact (c1_error_propagation_and_merge_order (fun _ => (.ok 0 : Except Nat Nat))
      (fun _ _ => (.ok 0 : Except Nat Nat)) 2).2.1 (by decide)
  · exact (c1_error_propagation_and_merge_order (fun _ => (.ok 0 : Except Nat Nat))
      (fun _ _ => (.ok 0 : Except Nat Nat)) 2).2.2.2.1 (by decide)

-- ### Claim C6, amended part

/-- Claim C6, amended.  When the heading scan finds no chapter and the body
lines are non-empty, get_chapters rebuilds the whole body under the book
title; it emits exactly one chapter — titled by the book title, or
"Chapter 1" when that title is empty — provided the rebuilt text is
non-empty, and otherwise emits no chapter at all (so a non-empty body does
not guarantee a chapter). -/
theorem c6_no_heading_fallback_amended (cfg : ParserCfg) (bs : List Char) (md : List KV)
    (body : List (List Char)) (t : List Char)
    (hbody : body ≠ [])
    (hscan : scanChapters cfg bs body = .ok [])
    (hbuild : buildChapterText cfg bs body (some (getBookTitle cfg md body)) = .ok t) :
    getChaptersAnnotated cfg bs md body =
      .ok (if t.isEmpty then []
           else
             [⟨sanitizeTitle bs (if (getBookTitle cfg md body).isEmpty then ("Chapter 1").data
                                 else getBookTitle cfg md body),
               t,
               (if (getBookTitle cfg md body).isEmpty then ("Chapter 1").data
                else getBookTitle cfg md body),
               (getBookTitle cfg md body).isEmpty⟩]) := by
  unfold getChaptersAnnotated
  rw [hscan]
  have hbody2 : body.isEmpty = false := by
    cases body with
    | nil => exact absurd rfl hbody
    | cons a l => rfl
  simp only [Except.bind, bind, List.isEmpty_nil, hbody2, Bool.not_false, Bool.and_true,
    if_true, hbuild]
  by_cases ht : t.isEmpty
  · simp only [ht, Bool.not_true, if_false, ite_true]
    rfl
  · have ht2 : t.isEmpty = false := by simpa using ht
    by_cases hbt : (getBookTitle cfg md body).isEmpty
    · simp only [ht2, hbt, Bool.not_false, if_true, ite_false]
      rfl
    · have hbt2 : (getBookTitle cfg md body).isEmpty = false := by simpa using hbt
      simp only [ht2, hbt2, Bool.not_false, if_true, ite_false]
      rfl

/-- Witness for c6_no_heading_fallback_amended: a fenced-code-block body with
a non-empty metadata title "T" produces exactly one chapter titled "T". -/
theorem c6_no_heading_fallback_witness :
    getChaptersAnnotated defaultCfg brkString [(("title").data, ("T").data)]
        [("```").data, ("x").data, ("```").data] =
      .ok [⟨("T").data, ("T @BRK#").data, ("T").data, false⟩] := by
  have h := c6_no_heading_fallback_amended defaultCfg brkString
      [(("title").data, ("T").data)] [("```").data, ("x").data, ("```").data]
      (("T @BRK#").data) (by decide) (by decide) (by decide)
  exact h.trans (by decide)

-- ### Claim C7 (front matter metadata capture)

theorem findSomeAppend {α β : Type} (f : α → Option β) :
    ∀ (l1 l2 : List α), (l1 ++ l2).findSome? f =
      match l1.findSome? f with
      | some v => some v
      | none => l2.findSome? f := by
  intro l1
  induction l1 with
  | nil => intro l2; simp
  | cons a l1 ih =>
      intro l2
      cases hf : f a <;> simp [List.findSome?_cons, hf, ih]

theorem assocFind_map_preserve (md : List KV) (k v k2 : List Char) (h : k2 ≠ k) :
    assocFind (md.map (fun p => if p.fst = k then (k, v) else p)) k2 = assocFind md k2 := by
  induction md with
  | nil => rfl
  | cons a md ih =>
      obtain ⟨ka, va⟩ := a
      simp only [List.map_cons]
      by_cases hk : ka = k
      · rw [if_pos hk]
        simp only [assocFind]
        rw [if_neg (fun hh => h hh.symm), if_neg (fun hh => h (hk ▸ hh).symm)]
        exact ih
      · rw [if_neg hk]
        simp only [assocFind]
        by_cases he : ka = k2
        · rw [if_pos he, if_pos he]
        · rw [if_neg he, if_neg he]
          exact ih

theorem assocFind_map_self (md : List KV) (k v : List Char)
    (h : md.any (fun p => decide (p.fst = k)) = true) :
    assocFind (md.map (fun p => if p.fst = k then (k, v) else p)) k = some v := by
  induction md with
  | nil => simp at h
  | cons a md ih =>
      obtain ⟨ka, va⟩ := a
      simp only [List.map_cons]
      by_cases hk : ka = k
      · rw [if_pos hk]
        simp [assocFind]
      · rw [if_neg hk]
        have h2 : md.any (fun p => decide (p.fst = k)) = true := by
          rw [List.any_cons, Bool.or_eq_true] at h
          rcases h with hx | hx
          · exact absurd (of_decide_eq_true hx) hk
          · exact hx
        simp only [assocFind, if_neg hk]
        exact ih h2

theorem assocFind_append_new (md : List KV) (k v k2 : List Char)
    (h : md.any (fun p => decide (p.fst = k)) = false) :
    assocFind (md ++ [(k, v)]) k2 = if k2 = k then some v else assocFind md k2 := by
  induction md with
  | nil =>
      simp only [List.nil_append, assocFind]
      by_cases he : k2 = k
      · rw [if_pos he.symm, if_pos he]
      · rw [if_neg (fun hh => he hh.symm), if_neg he]
  | cons a md ih =>
      obtain ⟨ka, va⟩ := a
      rw [List.any_cons] at h
      have h1 : ka ≠ k := by
        intro hh
        rw [hh] at h
        simp at h
      have h2 : md.any (fun p => decide (p.fst = k)) = false := by
        rcases Bool.or_eq_false_iff.mp h with ⟨_, hx⟩
        exact hx
      simp only [List.cons_append, assocFind, List.append_eq]
      rw [ih h2]
      by_cases he : ka = k2
      · have hne : k2 ≠ k := fun hh => h1 (he.trans hh)
        rw [if_pos he, if_neg hne, if_pos he]
      · by_cases hkk : k2 = k
        · rw [if_neg he, if_pos hkk, if_pos hkk]
        · simp only [if_neg he, if_neg hkk, assocFind]

theorem assocFind_dictInsert (md : List KV) (k v k2 : List Char) :
    assocFind (dictInsert md k v) k2 = if k2 = k then some v else assocFind md k2 := by
  unfold dictInsert
  by_cases h : md.any (fun p => decide (p.fst = k)) = true
  · rw [if_pos h]
    by_cases hk : k2 = k
    · rw [if_pos hk, hk]
      exact assocFind_map_self md k v h
    · rw [if_neg hk]
      exact assocFind_map_preserve md k v k2 hk
  · have h2 : md.any (fun p => decide (p.fst = k)) = false := by
      rwa [Bool.not_eq_true] at h
    rw [if_neg h]
    exact assocFind_append_new md k v k2 h2

theorem fmScanGo_find (k : List Char) :
    ∀ (lines : List (List Char)) (md0 : List KV),
      assocFind (fmScanGo md0 lines).fst k =
        match lastCapturedValue k (lines.takeWhile (fun l => !isDelimiterLine l)) with
        | some v => some v
        | none => assocFind md0 k := by
  intro lines
  induction lines with
  | nil => intro md0; simp [fmScanGo, lastCapturedValue]
  | cons l rest ih =>
      intro md0
      by_cases hd : isDelimiterLine l = true
      · simp [fmScanGo, hd, lastCapturedValue]
      · have hd2 : isDelimiterLine l = false := by simpa using hd
        have hTW : (l :: rest).takeWhile (fun l => !isDelimiterLine l) =
            l :: rest.takeWhile (fun l => !isDelimiterLine l) := by
          simp [List.takeWhile_cons, hd2]
        rw [hTW]
        have hred : fmScanGo md0 (l :: rest) =
            fmScanGo (match metaMatch l with
                      | some (kv : List Char × List Char) => dictInsert md0 kv.fst kv.snd
                      | none => md0) rest := by
          simp only [fmScanGo, hd2, Bool.false_eq_true, if_false]
          cases hm : metaMatch l with
          | none => rfl
          | some kv => cases kv; rfl
        rw [hred]
        have hlast : lastCapturedValue k (l :: rest.takeWhile (fun l => !isDelimiterLine l)) =
            match lastCapturedValue k (rest.takeWhile (fun l => !isDelimiterLine l)) with
            | some v => some v
            | none =>
                match metaMatch l with
                | some (k2, v) => if k2 = k then some v else none
                | none => none := by
          unfold lastCapturedValue
          rw [List.reverse_cons, findSomeAppend]
          cases (rest.takeWhile (fun l => !isDelimiterLine l)).reverse.findSome? (fun l =>
              match metaMatch l with
              | some (k2, v) => if k2 = k then some v else none
              | none => none) with
          | none =>
              simp only [List.findSome?_cons, List.findSome?_nil]
              cases hm : metaMatch l with
              | none => rfl
              | some kv =>
                  obtain ⟨k2, v2⟩ := kv
                  by_cases hk : k2 = k
                  · simp [hk]
                  · simp [hk]
          | some v => simp
        rw [ih, hlast]
        cases hlc : lastCapturedValue k (rest.takeWhile (fun l => !isDelimiterLine l)) with
        | some v => simp
        | none =>
            simp only []
            cases hm : metaMatch l with
            | none => simp
            | some kv =>
                obtain ⟨k2, v2⟩ := kv
                simp only []
                rw [assocFind_dictInsert]
                by_cases hk : k = k2
                · subst hk
                  simp
                · have : k2 ≠ k := fun hh => hk hh.symm
                  simp [hk, this]

/-- Claim C7, amended.  When the document's first line is a front-matter
delimiter, every scanned line (before the first closing delimiter) matching
the metadata pattern is captured under its lower-cased key, and when a key
occurs more than once the LAST occurrence wins: the recorded value is the
one of the last matching line carrying that key.  When line 1 is not a
delimiter, no metadata is captured and the whole document is body. -/
theorem c7_front_matter_capture (doc : List Char) (k : List Char) :
    (∀ l0 rest, splitLines doc = l0 :: rest → isDelimiterLine l0 = true →
        assocFind (extractFrontMatter doc).fst k =
          lastCapturedValue k (rest.takeWhile (fun l => !isDelimiterLine l))) ∧
    (∀ l0 rest, splitLines doc = l0 :: rest → isDelimiterLine l0 = false →
        extractFrontMatter doc = ([], splitLines doc)) := by
  constructor
  · intro l0 rest hsplit hdelim
    unfold extractFrontMatter
    rw [hsplit]
    simp only [hdelim, if_true]
    have hfind := fmScanGo_find k rest []
    rcases hfm : fmScanGo [] rest with ⟨md, rem⟩
    rw [hfm] at hfind
    have hnone : assocFind ([] : List KV) k = none := rfl
    rw [hnone] at hfind
    have : assocFind md k =
        lastCapturedValue k (rest.takeWhile (fun l => !isDelimiterLine l)) := by
      rw [hfind]
      cases lastCapturedValue k (rest.takeWhile (fun l => !isDelimiterLine l)) <;> simp
    cases rem <;> simpa using this
  · intro l0 rest hsplit hdelim
    unfold extractFrontMatter
    rw [hsplit]
    simp [hdelim]

/-- Witness for c7_front_matter_capture on a concrete document with a
duplicated key: the captured value for "a" is that of the LAST matching
line. -/
theorem c7_front_matter_capture_witness :
    assocFind (extractFrontMatter docC7).fst (("a").data) =
      lastCapturedValue (("a").data)
        ((splitLines docC7).drop 1 |>.takeWhile (fun l => !isDelimiterLine l)) ∧
    assocFind (extractFrontMatter docC7).fst (("a").data) = some (("2").data) := by
  constructor
  · have h := (c7_front_matter_capture docC7 (("a").data)).1
      (("---").data) ((splitLines docC7).drop 1) (by decide) (by decide)
    exact h
  · decide

/-- Claim C7, counterexample.  In the front matter "a: 1" then "a: 2", the
recorded value for key "a" is "2" — the last occurrence wins, not the
first. -/
theorem c7_first_wins_counterexample :
    assocFind (extractFrontMatter docC7).fst (("a").data) = some (("2").data) ∧
    assocFind (extractFrontMatter docC7).fst (("a").data) ≠ some (("1").data) := by decide

-- ### Claim C8 (fallback chapter numbering)

theorem annOKFrom_append (a : AnnChapter) :
    ∀ (k : Nat) (cs : List AnnChapter),
      annOKFrom k cs →
      (a.usedFallback = true → a.titleSource = chapterNumTitle (k + cs.length + 1)) →
      annOKFrom k (cs ++ [a]) := by
  intro k cs
  induction cs generalizing k with
  | nil =>
      intro _ ha
      exact ⟨by simpa using ha, trivial⟩
  | cons c cs ih =>
      intro hok ha
      obtain ⟨hc, hrest⟩ := hok
      refine ⟨hc, ih (k + 1) hrest ?_⟩
      intro hf
      rw [ha hf]
      congr 1
      simp only [List.length_cons]
      omega

theorem closeOffChapter_spec (cfg : ParserCfg) (bs : List Char) (incr : Bool)
    (st st2 : ChapState) (hinv : stInv st)
    (h : closeOffChapter cfg bs incr st = .ok st2) :
    annIndexOK st2.chapters ∧ (incr = true → stInv st2) := by
  unfold closeOffChapter at h
  cases hb : buildChapterText cfg bs st.currentLines st.currentTitle with
  | error e =>
      rw [hb] at h
      simp [Bind.bind, Except.bind] at h
  | ok t =>
      rw [hb] at h
      simp only [Bind.bind, Except.bind] at h
      by_cases ht : t.isEmpty = true
      · rw [if_pos ht] at h
        have hst : st = st2 := by
          simpa [Pure.pure, Except.pure] using h
        subst hst
        exact ⟨hinv.2, fun _ => hinv⟩
      · rw [if_neg ht] at h
        have hst : st2 =
            { st with
              chapters := st.chapters ++
                [⟨sanitizeTitle bs
                    (match st.currentTitle with
                     | some t2 => if t2.isEmpty then chapterNumTitle st.fallbackIndex else t2
                     | none => chapterNumTitle st.fallbackIndex),
                  t,
                  (match st.currentTitle with
                   | some t2 => if t2.isEmpty then chapterNumTitle st.fallbackIndex else t2
                   | none => chapterNumTitle st.fallbackIndex),
                  (match st.currentTitle with
                   | none => true
                   | some t2 => t2.isEmpty)⟩],
              fallbackIndex := if incr then st.fallbackIndex + 1 else st.fallbackIndex } := by
          simpa [Pure.pure, Except.pure] using h.symm
      -- the appended annotated chapter
        have hann : annIndexOK (st2.chapters) := by
          rw [hst]
          apply annOKFrom_append _ 0 st.chapters hinv.2
          intro hf
          simp only at hf ⊢
          cases hct : st.currentTitle with
          | none =>
              simp only [hct]
              rw [hinv.1, Nat.zero_add]
          | some t2 =>
              rw [hct] at hf
              simp only at hf
              simp only [hct, hf, if_true]
              rw [hinv.1, Nat.zero_add]
        refine ⟨hann, ?_⟩
        intro hincr
        subst hincr
        refine ⟨?_, hann⟩
        rw [hst]
        simp [List.length_append, hinv.1]

theorem chapterStep_inv (cfg : ParserCfg) (bs : List Char) (st st2 : ChapState)
    (line : List Char) (hinv : stInv st)
    (h : chapterStep cfg bs st line = .ok st2) : stInv st2 := by
  cases hm : headingMatch line with
  | none =>
      simp only [chapterStep, hm] at h
      have hst : st2 = { st with currentLines := st.currentLines ++ [line] } := by
        simpa [Pure.pure, Except.pure] using h.symm
      rw [hst]
      exact ⟨hinv.1, hinv.2⟩
  | some lv =>
      obtain ⟨level, rawText⟩ := lv
      by_cases hl : level ≤ 2
      · simp only [chapterStep, hm, if_pos hl, Bind.bind, Except.bind] at h
        by_cases hc : (decide (st.currentTitle ≠ none) || !st.currentLines.isEmpty) = true
        · rw [if_pos hc] at h
          cases hco : closeOffChapter cfg bs true st with
          | error e =>
              rw [hco] at h
              simp [Except.bind] at h
          | ok stm =>
              rw [hco] at h
              simp only [Except.bind] at h
              have hinv2 := (closeOffChapter_spec cfg bs true st stm hinv hco).2 rfl
              have h2 : ({ stm with currentTitle := some (pyStrip rawText), currentLines := [] } : ChapState) = st2 := by
                simpa [Pure.pure, Except.pure] using h
              rw [← h2]
              exact ⟨hinv2.1, hinv2.2⟩
        · rw [if_neg hc] at h
          have h2 : ({ st with currentTitle := some (pyStrip rawText), currentLines := [] } : ChapState) = st2 := by
            simpa [Pure.pure, Except.pure] using h
          rw [← h2]
          exact ⟨hinv.1, hinv.2⟩
      · simp only [chapterStep, hm, if_neg hl] at h
        have hst : st2 = { st with currentLines := st.currentLines ++ [line] } := by
          simpa [Pure.pure, Except.pure] using h.symm
        rw [hst]
        exact ⟨hinv.1, hinv.2⟩

theorem foldChapters_inv (cfg : ParserCfg) (bs : List Char) :
    ∀ (lines : List (List Char)) (st st2 : ChapState), stInv st →
      lines.foldlM (chapterStep cfg bs) st = .ok st2 → stInv st2 := by
  intro lines
  induction lines with
  | nil =>
      intro st st2 hinv h
      simp only [List.foldlM_nil] at h
      have : st = st2 := by simpa [Pure.pure, Except.pure] using h
      exact this ▸ hinv
  | cons l rest ih =>
      intro st st2 hinv h
      rw [List.foldlM_cons] at h
      cases hs : chapterStep cfg bs st l with
      | error e =>
          rw [hs] at h
          simp [Bind.bind, Except.bind] at h
      | ok stm =>
          rw [hs] at h
          simp only [Bind.bind, Except.bind] at h
          exact ih stm st2 (chapterStep_inv cfg bs st stm l hinv hs) h

theorem scanChapters_annOK (cfg : ParserCfg) (bs : List Char)
    (body : List (List Char)) (cs : List AnnChapter)
    (h : scanChapters cfg bs body = .ok cs) : annIndexOK cs := by
  unfold scanChapters at h
  simp only [Bind.bind, Except.bind] at h
  cases hf : body.foldlM (chapterStep cfg bs) ⟨[], none, [], 1⟩ with
  | error e =>
      rw [hf] at h
      simp at h
  | ok st =>
      rw [hf] at h
      simp only [] at h
      have hinv : stInv st :=
        foldChapters_inv cfg bs body ⟨[], none, [], 1⟩ st ⟨rfl, trivial⟩ hf
      by_cases hc : (decide (st.currentTitle ≠ none) || !st.currentLines.isEmpty) = true
      · rw [if_pos hc] at h
        cases hco : closeOffChapter cfg bs false st with
        | error e =>
            rw [hco] at h
            simp at h
        | ok st2 =>
            rw [hco] at h
            have hann := (closeOffChapter_spec cfg bs false st st2 hinv hco).1
            have : st2.chapters = cs := by
              simpa [Pure.pure, Except.pure] using h
            exact this ▸ hann
      · rw [if_neg hc] at h
        have : st.chapters = cs := by
          simpa [Pure.pure, Except.pure] using h
        exact this ▸ hinv.2

/-- Claim C8, amended.  Every chapter that get_chapters emits with the
synthesized fallback title carries "Chapter {n}" where n is 1 plus the
number of chapters of ANY kind already emitted (its 0-based output position
plus one): the counter `fallback_index` advances on every emitted chapter,
not only on fallback-titled ones, and a chapter whose heading text is empty
also takes the fallback title. -/
theorem c8_fallback_title_numbering (cfg : ParserCfg) (bs : List Char) (md : List KV)
    (body : List (List Char)) (out : List AnnChapter)
    (h : getChaptersAnnotated cfg bs md body = .ok out) : annIndexOK out := by
  unfold getChaptersAnnotated at h
  simp only [Bind.bind, Except.bind] at h
  cases hs : scanChapters cfg bs body with
  | error e =>
      rw [hs] at h
      simp at h
  | ok cs =>
      rw [hs] at h
      simp only [] at h
      have hann := scanChapters_annOK cfg bs body cs hs
      by_cases hc : (cs.isEmpty && !body.isEmpty) = true
      · rw [if_pos hc] at h
        cases hb : buildChapterText cfg bs body (some (getBookTitle cfg md body)) with
        | error e =>
            rw [hb] at h
            simp at h
        | ok t =>
            rw [hb] at h
            simp only [Bind.bind, Except.bind] at h
            by_cases ht : (!t.isEmpty) = true
            · rw [if_pos ht] at h
              have hx := h
              simp only [Pure.pure, Except.pure] at hx
              injection hx with hx2
              rw [← hx2]
              refine ⟨?_, trivial⟩
              intro hf
              simp only at hf ⊢
              rw [if_pos hf]
              decide
            · rw [if_neg ht] at h
              have hout : out = [] := by
                simpa [Pure.pure, Except.pure] using h
              rw [hout]
              exact trivial
      · rw [if_neg hc] at h
        have hout : cs = out := by
          simpa [Pure.pure, Except.pure] using h
        exact hout ▸ hann

/-- Witness for c8_fallback_title_numbering: a document with a preamble
before its first heading; the preamble chapter is fallback-titled
"Chapter 1" at position 0. -/
theorem c8_fallback_title_numbering_witness :
    getChaptersAnnotated defaultCfg brkString [] (splitLines docC8w) =
      .ok [⟨("Chapter_1").data, ("intro").data, ("Chapter 1").data, true⟩,
           ⟨("A").data, ("A @BRK# x").data, ("A").data, false⟩] ∧
    (⟨("Chapter_1").data, ("intro").data, ("Chapter 1").data, true⟩ :
        AnnChapter).titleSource = chapterNumTitle (0 + 1) := by
  constructor
  · decide
  · have h := c8_fallback_title_numbering defaultCfg brkString [] (splitLines docC8w)
      [⟨("Chapter_1").data, ("intro").data, ("Chapter 1").data, true⟩,
       ⟨("A").data, ("A @BRK# x").data, ("A").data, false⟩] (by decide)
    exact h.1 (by decide)

/-- Claim C8, counterexample.  In the document "# A\nx\n# \ny" the second
emitted chapter is the FIRST fallback-titled chapter (the "# " heading has
empty text, so `current_title` is falsy), yet its synthesized title is
"Chapter 2", not "Chapter 1": the counter also advanced on the
heading-titled chapter "A". -/
theorem c8_fallback_counter_counterexample :
    getChaptersAnnotated defaultCfg brkString [] (splitLines docC8) =
      .ok [⟨("A").data, ("A @BRK# x").data, ("A").data, false⟩,
           ⟨("Chapter_2").data, ("y").data, ("Chapter 2").data, true⟩] ∧
    (("Chapter 2").data : List Char) ≠ ("Chapter 1").data := by decide

-- ### Claim C5 (the three newline modes)

theorem joinSep_consHead (sep : List Char) (c : Char) (ps : List (List Char)) :
    joinSep sep (consHeadPiece c ps) = c :: joinSep sep ps := by
  cases ps with
  | nil => rfl
  | cons p ps =>
      cases ps with
      | nil => rfl
      | cons q ps => simp [consHeadPiece, joinSep]

theorem joinSep_cons_of_ne_nil (sep : List Char) (x : List Char) (ps : List (List Char))
    (h : ps ≠ []) : joinSep sep (x :: ps) = x ++ sep ++ joinSep sep ps := by
  cases ps with
  | nil => exact absurd rfl h
  | cons q ps => rfl

theorem splitNlRuns_ne_nil : ∀ s : List Char, splitNlRuns s ≠ [] := by
  intro s
  induction s with
  | nil => simp [splitNlRuns]
  | cons c rest ih =>
      by_cases hc : c = '\n'
      · have hb : (c == '\n') = true := by simp [hc]
        cases rest with
        | nil => simp [splitNlRuns, hb]
        | cons c2 r2 =>
            by_cases hc2 : c2 = '\n'
            · have hb2 : (c2 == '\n') = true := by simp [hc2]
              simpa [splitNlRuns, hb, hb2] using ih
            · have hb2 : (c2 == '\n') = false := by simp [hc2]
              simp [splitNlRuns, hb, hb2]
      · have hb : (c == '\n') = false := by simp [hc]
        simp only [splitNlRuns, hb, Bool.false_eq_true, if_false]
        cases hsp : splitNlRuns rest with
        | nil => exact absurd hsp ih
        | cons p ps => simp [consHeadPiece]

theorem splitNlRuns_cons_nl :
    ∀ rest : List Char, splitNlRuns ('\n' :: rest) =
      [] :: splitNlRuns (rest.dropWhile (fun c => c == '\n')) := by
  intro rest
  induction rest with
  | nil => rfl
  | cons c2 r2 ih =>
      by_cases hc2 : c2 = '\n'
      · have hb2 : (c2 == '\n') = true := by simp [hc2]
        subst hc2
        calc splitNlRuns ('\n' :: '\n' :: r2) = splitNlRuns ('\n' :: r2) := by
              simp [splitNlRuns]
          _ = [] :: splitNlRuns (r2.dropWhile (fun c => c == '\n')) := ih
          _ = [] :: splitNlRuns ((('\n' : Char) :: r2).dropWhile (fun c => c == '\n')) := by
              simp [List.dropWhile_cons]
      · have hb2 : (c2 == '\n') = false := by simp [hc2]
        simp [splitNlRuns, hb2, List.dropWhile_cons]

theorem subNlRunsGo_spec (rep : List Char) :
    ∀ s : List Char,
      subNlRunsGo rep false s = joinSep rep (splitNlRuns s) ∧
      subNlRunsGo rep true s =
        joinSep rep (splitNlRuns (s.dropWhile (fun c => c == '\n'))) := by
  intro s
  induction s with
  | nil => exact ⟨rfl, rfl⟩
  | cons c rest ih =>
      by_cases hc : c = '\n'
      · have hb : (c == '\n') = true := by simp [hc]
        subst hc
        constructor
        · show subNlRunsGo rep false ('\n' :: rest) = _
          have h1 : subNlRunsGo rep false ('\n' :: rest) = rep ++ subNlRunsGo rep true rest := by
            simp [subNlRunsGo]
          rw [h1, splitNlRuns_cons_nl,
            joinSep_cons_of_ne_nil rep [] _ (splitNlRuns_ne_nil _), ih.2]
          simp
        · have h1 : subNlRunsGo rep true ('\n' :: rest) = subNlRunsGo rep true rest := by
            simp [subNlRunsGo]
          rw [h1, ih.2]
          simp [List.dropWhile_cons]
      · have hb : (c == '\n') = false := by simp [hc]
        constructor
        · have h1 : subNlRunsGo rep false (c :: rest) = c :: subNlRunsGo rep false rest := by
            simp [subNlRunsGo, hb]
          rw [h1, ih.1]
          simp only [splitNlRuns, hb, Bool.false_eq_true, if_false]
          rw [joinSep_consHead]
        · have h1 : subNlRunsGo rep true (c :: rest) = c :: subNlRunsGo rep false rest := by
            simp [subNlRunsGo, hb]
          rw [h1, ih.1]
          rw [List.dropWhile_cons]
          simp only [hb, Bool.false_eq_true, if_false]
          simp only [splitNlRuns, hb, Bool.false_eq_true, if_false]
          rw [joinSep_consHead]

theorem mapNlSpace_nil : mapNlSpace [] = [] := rfl

theorem mapNlSpace_cons (c : Char) (l : List Char) :
    mapNlSpace (c :: l) = (if c == '\n' then ' ' else c) :: mapNlSpace l := rfl

theorem mapNlSpace_append (a b : List Char) :
    mapNlSpace (a ++ b) = mapNlSpace a ++ mapNlSpace b := by
  simp [mapNlSpace]

theorem mapNlSpace_eq_self {l : List Char} (h : ('\n') ∉ l) : mapNlSpace l = l := by
  induction l with
  | nil => rfl
  | cons c rest ih =>
      have hc : c ≠ '\n' := fun hh => h (hh ▸ List.mem_cons_self c rest)
      have hb : (c == '\n') = false := by simp [hc]
      have hrest : ('\n') ∉ rest := fun hh => h (List.mem_cons_of_mem c hh)
      rw [mapNlSpace_cons, hb, ih hrest]
      simp

theorem pyStripR_cons (c : Char) (t : List Char) :
    pyStripR (c :: t) = if (pyStripR t).isEmpty && isPySpace c then [] else c :: pyStripR t := rfl

theorem pyStripR_decomp : ∀ s : List Char, ∃ r, s = pyStripR s ++ r := by
  intro s
  induction s with
  | nil => exact ⟨[], rfl⟩
  | cons c t ih =>
      obtain ⟨r, hr⟩ := ih
      rw [pyStripR_cons]
      by_cases h : ((pyStripR t).isEmpty && isPySpace c) = true
      · rw [if_pos h]
        exact ⟨c :: t, rfl⟩
      · rw [if_neg h]
        exact ⟨r, by rw [List.cons_append, ← hr]⟩

theorem pyStrip_decomp (s : List Char) : ∃ l r, s = l ++ pyStrip s ++ r := by
  obtain ⟨r, hr⟩ := pyStripR_decomp (pyStripL s)
  refine ⟨s.takeWhile isPySpace, r, ?_⟩
  have h1 : s = s.takeWhile isPySpace ++ pyStripL s := by
    rw [pyStripL]
    exact (List.takeWhile_append_dropWhile isPySpace s).symm
  unfold pyStrip
  rw [List.append_assoc, ← hr, ← h1]

theorem mem_of_pyStrip {c : Char} {s : List Char} (h : c ∈ pyStrip s) : c ∈ s := by
  obtain ⟨l, r, hdec⟩ := pyStrip_decomp s
  rw [hdec]
  simp [h]

theorem splitNl2Go_ne_nil : ∀ (s acc : List Char) (run : Nat), splitNl2Go acc run s ≠ [] := by
  intro s
  induction s with
  | nil =>
      intro acc run
      by_cases h2 : 2 ≤ run <;> simp [splitNl2Go, h2]
  | cons c rest ih =>
      intro acc run
      by_cases hc : c = '\n'
      · have hb : (c == '\n') = true := by simp [hc]
        simpa [splitNl2Go, hb] using ih acc (run + 1)
      · have hb : (c == '\n') = false := by simp [hc]
        by_cases h2 : 2 ≤ run
        · simp [splitNl2Go, hb, h2]
        · simpa [splitNl2Go, hb, h2] using ih (c :: (flushSingle run ++ acc)) 0

theorem subNl2Go_spec (rep : List Char) (hrep : ('\n') ∉ rep) :
    ∀ (s acc : List Char) (run : Nat),
      joinSep rep ((splitNl2Go acc run s).map mapNlSpace) =
        mapNlSpace acc.reverse ++ mapNlSpace (subNl2Go rep run s) := by
  intro s
  induction s with
  | nil =>
      intro acc run
      match run with
      | 0 =>
          have e1 : splitNl2Go acc 0 ([] : List Char) = [acc.reverse] := by
            simp [splitNl2Go, flushSingle]
          have e2 : subNl2Go rep 0 ([] : List Char) = [] := rfl
          rw [e1, e2, List.map_cons, List.map_nil, mapNlSpace_nil]
          simp [joinSep]
      | 1 =>
          have e1 : splitNl2Go acc 1 ([] : List Char) = [acc.reverse ++ ['\n']] := by
            simp [splitNl2Go, flushSingle]
          have e2 : subNl2Go rep 1 ([] : List Char) = ['\n'] := rfl
          rw [e1, e2, List.map_cons, List.map_nil, mapNlSpace_append]
          simp [joinSep, mapNlSpace_cons, mapNlSpace_nil]
      | r + 2 =>
          have h2 : 2 ≤ r + 2 := by omega
          have e1 : splitNl2Go acc (r + 2) ([] : List Char) = [acc.reverse, []] := by
            simp [splitNl2Go, h2]
          have e2 : subNl2Go rep (r + 2) ([] : List Char) = rep := rfl
          rw [e1, e2, List.map_cons, List.map_cons, List.map_nil, mapNlSpace_nil]
          rw [joinSep_cons_of_ne_nil _ _ _ (by simp), mapNlSpace_eq_self hrep]
          simp [joinSep]
  | cons c rest ih =>
      intro acc run
      by_cases hc : c = '\n'
      · have hb : (c == '\n') = true := by simp [hc]
        have h1 : splitNl2Go acc run (c :: rest) = splitNl2Go acc (run + 1) rest := by
          simp [splitNl2Go, hb]
        have h2 : subNl2Go rep run (c :: rest) = subNl2Go rep (run + 1) rest := by
          simp [subNl2Go, hb]
        rw [h1, h2, ih acc (run + 1)]
      · have hb : (c == '\n') = false := by simp [hc]
        by_cases h2 : 2 ≤ run
        · obtain ⟨r, rfl⟩ : ∃ r, run = r + 2 := ⟨run - 2, by omega⟩
          have hs1 : splitNl2Go acc (r + 2) (c :: rest) =
              acc.reverse :: splitNl2Go [c] 0 rest := by
            simp [splitNl2Go, hb, h2]
          have hs2 : subNl2Go rep (r + 2) (c :: rest) =
              rep ++ c :: subNl2Go rep 0 rest := by
            simp [subNl2Go, hb, flushNl]
          rw [hs1, hs2, List.map_cons,
            joinSep_cons_of_ne_nil _ _ _
              (by simpa using splitNl2Go_ne_nil rest [c] 0),
            ih [c] 0, List.reverse_singleton, mapNlSpace_append,
            mapNlSpace_eq_self hrep, mapNlSpace_cons, mapNlSpace_cons, mapNlSpace_nil]
          simp [List.append_assoc]
        · have hs1 : splitNl2Go acc run (c :: rest) =
              splitNl2Go (c :: (flushSingle run ++ acc)) 0 rest := by
            simp [splitNl2Go, hb, h2]
          have hs2 : subNl2Go rep run (c :: rest) =
              flushNl rep run ++ c :: subNl2Go rep 0 rest := by
            simp [subNl2Go, hb]
          have hflush : flushNl rep run = flushSingle run := by
            match run with
            | 0 => rfl
            | 1 => rfl
            | r + 2 => omega
          have hrev : (flushSingle run).reverse = flushSingle run := by
            unfold flushSingle
            by_cases hr : run = 1 <;> simp [hr]
          rw [hs1, hs2, ih (c :: (flushSingle run ++ acc)) 0, hflush,
            List.reverse_cons, List.reverse_append, hrev]
          rw [mapNlSpace_append, mapNlSpace_append, mapNlSpace_append, mapNlSpace_cons,
            mapNlSpace_cons, mapNlSpace_nil]
          simp [List.append_assoc]

/-- Claim C5.  _apply_newline_mode: in mode "single" every maximal run of
one or more newlines is replaced by the (space-padded, stripped) break
marker; in mode "double" only runs of two or more newlines become the
marker while each remaining single newline becomes a plain space; in mode
"none" every newline becomes a plain space; any other mode raises the fatal
ValueError.  The mode semantics are stated through the independent
splitters splitNlRuns / splitNl2Runs and joinSep. -/
theorem c5_newline_modes (bs text : List Char) (hbs : ('\n') ∉ bs) :
    applyNewlineMode "single" bs text =
      .ok (joinSep (padSep bs) (splitNlRuns (replCRLF text))) ∧
    applyNewlineMode "double" bs text =
      .ok (joinSep (padSep bs) ((splitNl2Runs (replCRLF text)).map mapNlSpace)) ∧
    applyNewlineMode "none" bs text = .ok (mapNlSpace (replCRLF text)) ∧
    (∀ mode : String, mode ≠ "single" → mode ≠ "double" → mode ≠ "none" →
        applyNewlineMode mode bs text = .error ("Invalid newline mode: " ++ mode)) := by
  have hpad : ('\n') ∉ padSep bs := by
    intro hmem
    simp only [padSep, List.mem_cons, List.mem_append] at hmem
    rcases hmem with h | h | h
    · exact absurd h (by decide)
    · exact hbs (mem_of_pyStrip h)
    · simp at h
  refine ⟨?_, ?_, ?_, ?_⟩
  · simp only [applyNewlineMode, if_pos rfl]
    exact congrArg Except.ok (subNlRunsGo_spec (padSep bs) (replCRLF text)).1
  · have hne : ("double" : String) ≠ "single" := by decide
    simp only [applyNewlineMode, if_neg hne, if_pos rfl]
    refine congrArg Except.ok ?_
    have h := subNl2Go_spec (padSep bs) hpad (replCRLF text) [] 0
    rw [List.reverse_nil, mapNlSpace_nil, List.nil_append] at h
    exact h.symm
  · have hne1 : ("none" : String) ≠ "single" := by decide
    have hne2 : ("none" : String) ≠ "double" := by decide
    simp [applyNewlineMode, hne1, hne2]
  · intro mode h1 h2 h3
    simp [applyNewlineMode, h1, h2, h3]

/-- Witness for c5_newline_modes at the marker " @BRK#" and the text
"a\nb\n\nc": mode double keeps the single break as a space and turns the
blank line into the marker. -/
theorem c5_newline_modes_witness :
    applyNewlineMode "double" (" @BRK#").data ("a\nb\n\nc").data =
      .ok (joinSep (padSep (" @BRK#").data)
        ((splitNl2Runs (replCRLF ("a\nb\n\nc").data)).map mapNlSpace)) ∧
    applyNewlineMode "double" (" @BRK#").data ("a\nb\n\nc").data =
      .ok (("a b @BRK# c").data) := by
  constructor
  · exact (c5_newline_modes (" @BRK#").data ("a\nb\n\nc").data (by decide)).2.1
  · decide

-- ### Claim C10 (break marker replaced before backend calls)

theorem brkString_eq : brkString = [' ', '@', 'B', 'R', 'K', '#'] := rfl

theorem containsPat_cons (p : List Char) (c : Char) (rest : List Char) :
    containsPat p (c :: rest) = (startsWithPat p (c :: rest) || containsPat p rest) := rfl

theorem startsWithPat_nil_pat : ∀ s : List Char, startsWithPat [] s = true := by
  intro s
  cases s <;> rfl

theorem containsPat_nil_pat : ∀ s : List Char, containsPat [] s = true := by
  intro s
  cases s <;> rfl

theorem containsPat_of_startsWithPat (p s : List Char) (h : startsWithPat p s = true) :
    containsPat p s = true := by
  cases s with
  | nil =>
      cases p with
      | nil => rfl
      | cons q p2 => simp [startsWithPat] at h
  | cons c rest =>
      rw [containsPat_cons, h]
      rfl

theorem startsWithPat_length : ∀ (p s : List Char), startsWithPat p s = true →
    p.length ≤ s.length := by
  intro p
  induction p with
  | nil => intro s _; simp
  | cons q p2 ih =>
      intro s h
      cases s with
      | nil => simp [startsWithPat] at h
      | cons c rest =>
          simp only [startsWithPat, Bool.and_eq_true] at h
          have := ih rest h.2
          simp [List.length_cons]
          omega

theorem startsWithPat_refl : ∀ p : List Char, startsWithPat p p = true := by
  intro p
  induction p with
  | nil => rfl
  | cons q p2 ih => simp [startsWithPat, ih]

theorem startsWithPat_eq_of_length : ∀ (p s : List Char), startsWithPat p s = true →
    s.length ≤ p.length → p = s := by
  intro p
  induction p with
  | nil =>
      intro s _ hlen
      cases s with
      | nil => rfl
      | cons c rest => simp at hlen
  | cons q p2 ih =>
      intro s h hlen
      cases s with
      | nil => simp [startsWithPat] at h
      | cons c rest =>
          simp only [startsWithPat, Bool.and_eq_true, beq_iff_eq] at h
          simp only [List.length_cons, Nat.add_le_add_iff_right] at hlen
          rw [h.1, ih rest h.2 hlen]

theorem startsWithPat_append_right : ∀ (p u r : List Char), startsWithPat p u = true →
    startsWithPat p (u ++ r) = true := by
  intro p
  induction p with
  | nil => intro u r _; exact startsWithPat_nil_pat _
  | cons q p2 ih =>
      intro u r h
      cases u with
      | nil => simp [startsWithPat] at h
      | cons c rest =>
          simp only [startsWithPat, Bool.and_eq_true] at h
          simp only [List.cons_append, startsWithPat, Bool.and_eq_true]
          exact ⟨h.1, ih rest r h.2⟩

theorem sw_append_split : ∀ (a p b : List Char), startsWithPat p (a ++ b) = true →
    startsWithPat p a = true ∨
      (startsWithPat a p = true ∧ startsWithPat (p.drop a.length) b = true) := by
  intro a
  induction a with
  | nil =>
      intro p b h
      right
      exact ⟨startsWithPat_nil_pat p, h⟩
  | cons x a2 ih =>
      intro p b h
      cases p with
      | nil => left; rfl
      | cons q p2 =>
          simp only [List.cons_append, startsWithPat, Bool.and_eq_true] at h
          rcases ih p2 b h.2 with h2 | ⟨h2, h3⟩
          · left
            simp only [startsWithPat, Bool.and_eq_true]
            exact ⟨h.1, h2⟩
          · right
            constructor
            · simp only [startsWithPat, Bool.and_eq_true, beq_iff_eq]
              exact ⟨(beq_iff_eq.mp h.1).symm, h2⟩
            · simpa using h3

theorem containsPat_append_r (p : List Char) : ∀ (u r : List Char),
    containsPat p u = true → containsPat p (u ++ r) = true := by
  intro u
  induction u with
  | nil =>
      intro r h
      have : p = [] := by
        cases p with
        | nil => rfl
        | cons q p2 => simp [containsPat] at h
      rw [this]
      exact containsPat_nil_pat _
  | cons c u2 ih =>
      intro r h
      rw [containsPat_cons, Bool.or_eq_true] at h
      rw [List.cons_append, containsPat_cons, Bool.or_eq_true]
      rcases h with h | h
      · left
        have := startsWithPat_append_right p (c :: u2) r h
        simpa using this
      · right
        exact ih r h

theorem containsPat_append_l (p : List Char) : ∀ (l u : List Char),
    containsPat p u = true → containsPat p (l ++ u) = true := by
  intro l
  induction l with
  | nil => intro u h; simpa using h
  | cons c l2 ih =>
      intro u h
      rw [List.cons_append, containsPat_cons, Bool.or_eq_true]
      right
      exact ih u h

theorem containsPat_pyStrip_false (p : List Char) (u : List Char)
    (h : containsPat p u = false) : containsPat p (pyStrip u) = false := by
  cases hc : containsPat p (pyStrip u) with
  | false => rfl
  | true =>
      exfalso
      obtain ⟨l, r, hdec⟩ := pyStrip_decomp u
      have h1 := containsPat_append_r p (pyStrip u) r hc
      have h2 := containsPat_append_l p l _ h1
      rw [← List.append_assoc, ← hdec] at h2
      rw [h2] at h
      exact Bool.noConfusion h

theorem sw_brk_nl (z : List Char) : startsWithPat brkString ('\n' :: z) = false := rfl

theorem sw_cons (p : Char) (ps : List Char) (c : Char) (cs : List Char) :
    startsWithPat (p :: ps) (c :: cs) = ((p == c) && startsWithPat ps cs) := rfl

theorem sw_brk_cons (c : Char) (z : List Char) :
    startsWithPat brkString (c :: z) =
      ((' ' == c) && startsWithPat ['@', 'B', 'R', 'K', '#'] z) := rfl

theorem pyReplaceGo_pres (v : List Char) (hv : ∀ c ∈ v, c ≠ '\n') :
    ∀ (n : Nat) (s : List Char),
      startsWithPat v (pyReplaceGo brkString blankLine n s) = true →
      startsWithPat v s = true := by
  induction v with
  | nil => intro n s _; exact startsWithPat_nil_pat s
  | cons v0 v2 ih =>
      have hv0 : v0 ≠ '\n' := hv v0 (List.mem_cons_self _ _)
      have hv2 : ∀ c ∈ v2, c ≠ '\n' := fun c hc => hv c (List.mem_cons_of_mem _ hc)
      intro n
      induction n with
      | zero => intro s h; exact h
      | succ m ihn =>
          intro s h
          cases s with
          | nil => exact h
          | cons c rest =>
              by_cases hp : startsWithPat brkString (c :: rest) = true
              · rw [show pyReplaceGo brkString blankLine (m + 1) (c :: rest) =
                    blankLine ++ pyReplaceGo brkString blankLine m
                      ((c :: rest).drop brkString.length) from by
                  simp [pyReplaceGo, hp]] at h
                rw [show (blankLine ++ pyReplaceGo brkString blankLine m
                      ((c :: rest).drop brkString.length)) =
                    '\n' :: '\n' :: pyReplaceGo brkString blankLine m
                      ((c :: rest).drop brkString.length) from rfl] at h
                rw [sw_cons, Bool.and_eq_true] at h
                exact absurd (beq_iff_eq.mp h.1) hv0
              · rw [show pyReplaceGo brkString blankLine (m + 1) (c :: rest) =
                    c :: pyReplaceGo brkString blankLine m rest from by
                  simp [pyReplaceGo, hp]] at h
                rw [sw_cons, Bool.and_eq_true] at h
                rw [sw_cons, Bool.and_eq_true]
                exact ⟨h.1, ih hv2 m rest h.2⟩

theorem pyReplaceGo_no_marker :
    ∀ (n : Nat) (s : List Char), s.length ≤ n →
      containsPat brkString (pyReplaceGo brkString blankLine n s) = false := by
  intro n
  induction n with
  | zero =>
      intro s hlen
      have : s = [] := List.length_eq_zero.mp (by omega)
      subst this
      rfl
  | succ m ih =>
      intro s hlen
      cases s with
      | nil => rfl
      | cons c rest =>
          by_cases hp : startsWithPat brkString (c :: rest) = true
          · rw [show pyReplaceGo brkString blankLine (m + 1) (c :: rest) =
                blankLine ++ pyReplaceGo brkString blankLine m
                  ((c :: rest).drop brkString.length) from by
              simp [pyReplaceGo, hp]]
            have hb6 : brkString.length = 6 := rfl
            have hlen2 : ((c :: rest).drop brkString.length).length ≤ m := by
              rw [List.length_drop, hb6]
              simp only [List.length_cons] at hlen ⊢
              omega
            have hrec := ih _ hlen2
            simp only [blankLine, List.cons_append, List.nil_append, containsPat_cons,
              sw_brk_nl, Bool.false_or]
            exact hrec
          · rw [show pyReplaceGo brkString blankLine (m + 1) (c :: rest) =
                c :: pyReplaceGo brkString blankLine m rest from by
              simp [pyReplaceGo, hp]]
            have hlen2 : rest.length ≤ m := by
              simp only [List.length_cons] at hlen
              omega
            have hrec := ih rest hlen2
            rw [containsPat_cons, hrec, Bool.or_false]
            cases hsw : startsWithPat brkString
                (c :: pyReplaceGo brkString blankLine m rest) with
            | false => rfl
            | true =>
                exfalso
                rw [sw_brk_cons, Bool.and_eq_true] at hsw
                have htail := pyReplaceGo_pres ['@', 'B', 'R', 'K', '#']
                  (by decide) m rest hsw.2
                have hfull : startsWithPat brkString (c :: rest) = true := by
                  rw [sw_brk_cons, Bool.and_eq_true]
                  exact ⟨hsw.1, htail⟩
                exact hp hfull

theorem pyReplace_brk_no_marker (s : List Char) :
    containsPat brkString (pyReplace s brkString blankLine) = false := by
  unfold pyReplace
  rw [if_neg (by decide : ¬ (brkString.isEmpty = true))]
  exact pyReplaceGo_no_marker s.length s (le_refl _)

theorem contains_append_blankLine : ∀ (a b : List Char),
    containsPat brkString a = false →
    containsPat brkString ('\n' :: '\n' :: b) = false →
    containsPat brkString (a ++ '\n' :: '\n' :: b) = false := by
  intro a
  induction a with
  | nil => intro b _ h2; simpa using h2
  | cons x a2 ih =>
      intro b h1 h2
      rw [containsPat_cons] at h1
      obtain ⟨h1a, h1b⟩ := Bool.or_eq_false_iff.mp h1
      rw [List.cons_append, containsPat_cons]
      rw [ih b h1b h2, Bool.or_false]
      cases hsw : startsWithPat brkString (x :: (a2 ++ '\n' :: '\n' :: b)) with
      | false => rfl
      | true =>
          exfalso
          rcases sw_append_split (x :: a2) brkString ('\n' :: '\n' :: b)
            (by rw [List.cons_append]; exact hsw) with hc | ⟨hc1, hc2⟩
          · rw [hc] at h1a
            exact Bool.noConfusion h1a
          · by_cases hlen : brkString.length ≤ (x :: a2).length
            · have := startsWithPat_eq_of_length (x :: a2) brkString hc1 hlen
              have hsw2 : startsWithPat brkString (x :: a2) = true := by
                rw [← this]
                exact startsWithPat_refl _
              rw [hsw2] at h1a
              exact Bool.noConfusion h1a
            · have hb6 : brkString.length = 6 := rfl
              have hk : (x :: a2).length < 6 := by
                rw [hb6] at hlen
                omega
              have hdropne : ∀ k, k < 6 →
                  startsWithPat (brkString.drop k) ('\n' :: '\n' :: b) = false := by
                intro k hkk
                interval_cases k <;> rfl
              have := hdropne (x :: a2).length hk
              rw [hc2] at this
              exact Bool.noConfusion this

/-- Claim C10.  All three providers replace every occurrence of the break
marker " @BRK#" in the chunk text by a blank line before the backend call:
the prepared chunk text never contains the marker (for Gemini both with no
configured instructions and with any marker-free instructions string). -/
theorem c10_break_marker_never_sent (chunk : List Char) :
    containsPat brkString (geminiPreparePrompt none chunk) = false ∧
    containsPat brkString (minimaxPrepareText chunk) = false ∧
    containsPat brkString (qwenPrepareText chunk) = false ∧
    (∀ instr, containsPat brkString instr = false →
        containsPat brkString (geminiPreparePrompt (some instr) chunk) = false) := by
  have hrep := pyReplace_brk_no_marker chunk
  refine ⟨hrep, ?_, ?_, ?_⟩
  · exact containsPat_pyStrip_false _ _ hrep
  · exact containsPat_pyStrip_false _ _ hrep
  · intro instr hinstr
    have hred : geminiPreparePrompt (some instr) chunk =
        (if instr.isEmpty = true then pyReplace chunk brkString blankLine
         else pyStrip instr ++ blankLine ++ pyReplace chunk brkString blankLine) := rfl
    rw [hred]
    by_cases hi : instr.isEmpty = true
    · rw [if_pos hi]
      exact hrep
    · rw [if_neg hi]
      have h2 : containsPat brkString ('\n' :: '\n' ::
          pyReplace chunk brkString blankLine) = false := by
        rw [containsPat_cons, containsPat_cons, sw_brk_nl, sw_brk_nl]
        simpa using hrep
      have := contains_append_blankLine (pyStrip instr)
        (pyReplace chunk brkString blankLine)
        (containsPat_pyStrip_false _ _ hinstr) h2
      simpa [blankLine] using this

/-- Witness for c10_break_marker_never_sent on a concrete chunk containing
the marker twice, and marker-free instructions. -/
theorem c10_break_marker_witness :
    containsPat brkString (minimaxPrepareText ("a @BRK#b @BRK#c").data) = false ∧
    containsPat brkString
      (geminiPreparePrompt (some (("Read slowly.").data)) ("a @BRK#b").data) = false ∧
    minimaxPrepareText ("a @BRK#b @BRK#c").data = ("a\n\nb\n\nc").data := by
  refine ⟨(c10_break_marker_never_sent (("a @BRK#b @BRK#c").data)).2.1,
    (c10_break_marker_never_sent (("a @BRK#b").data)).2.2.2
      (("Read slowly.").data) (by decide), by decide⟩
